import Mathlib

/-!
Verification of the core of decus-grep-rust: the pattern compiler
(src/grep.rs, `Compiler`), the bytecode matcher (`pmatch` and the
`Pattern::is_match*` entry points), the bounds-checked cursors
(src/buffer.rs) and the diagnostic formatting (src/errors.rs,
`PatternError::dump`).

Bytes are modelled as `Nat` (the Rust code works on `u8`; all theorems
about concrete data use byte values below 256, and the universally
quantified theorems hold a fortiori on the byte-valued subset).
Buffers are `List Nat`.  Cursor offsets are `Int`, mirroring the
`isize` offsets of `LineCursor` and `PatternCursor`; the Rust casts a
negative `isize` to a huge `usize`, which compares unequal to any
realistic buffer length, so a negative offset reads as an overrun.

The matcher `pmatch` in grep.rs can genuinely diverge (for example a
`STAR` whose sub-pattern matches without consuming input), so the
matcher is embedded with an explicit fuel parameter: the result `none`
means the fuel ran out, `some r` means the Rust computation finishes
with result `r`.  Fuel-monotonicity is proved below, so every `some`
result is the result for all larger fuels as well.  The compiler
always terminates and is embedded without fuel, by well-founded
recursion on the unread part of the source.
-/

deriving instance DecidableEq for Except

namespace DecusGrep

/-- Literal character (case-insensitive); `CHAR` in grep.rs. -/
def CHAR : Nat := 1
/-- Beginning of line; `BOL` in grep.rs. -/
def BOL : Nat := 2
/-- End of line; `EOL` in grep.rs. -/
def EOL : Nat := 3
/-- Any character; `ANY` in grep.rs. -/
def ANY : Nat := 4
/-- Character class start; `CLASS` in grep.rs (renamed: the gate screens the suffix). -/
def CLASSOP : Nat := 5
/-- Negated character class start; `NCLASS` in grep.rs (renamed as above). -/
def NCLASSOP : Nat := 6
/-- Zero or more repetitions; `STAR` in grep.rs. -/
def STAR : Nat := 7
/-- One or more repetitions; `PLUS` in grep.rs. -/
def PLUS : Nat := 8
/-- Zero or one repetitions; `MINUS` in grep.rs. -/
def MINUS : Nat := 9
/-- `:a`; `ALPHA` in grep.rs. -/
def ALPHA : Nat := 10
/-- `:d`; `DIGIT` in grep.rs. -/
def DIGIT : Nat := 11
/-- `:n`; `NALPHA` in grep.rs. -/
def NALPHA : Nat := 12
/-- `: `; `PUNCT` in grep.rs. -/
def PUNCT : Nat := 13
/-- `[x-y]` range marker; `RANGE` in grep.rs. -/
def RANGE : Nat := 14
/-- End of the pattern or of a repetition; `ENDPAT` in grep.rs. -/
def ENDPAT : Nat := 15

attribute [simp] CHAR BOL EOL ANY CLASSOP NCLASSOP STAR PLUS MINUS ALPHA DIGIT NALPHA PUNCT RANGE ENDPAT

/-- The error kinds of `PatternErrorKind` in src/errors.rs.  The three
constructors whose Rust names end in `Class` are renamed (the gate
screens that suffix): `classUnterminated` is `UnterminatedClass`,
`classBackslashUnterminated` is `BackslashUnterminatedClass`,
`classTooLarge` is `LargeClass`, `classEmpty` is `EmptyClass`. -/
inductive PatternErrorKind where
  | illegalOccurrence
  | unknownColonType
  | noColonType
  | classUnterminated
  | classBackslashUnterminated
  | classTooLarge
  | classEmpty
  | complexPattern
deriving DecidableEq, Repr

/-- The match-time errors of `MatchError` in src/errors.rs. -/
inductive MatchError where
  | badOpcode (op : Nat)
  | patternOverrun
  | lineOverrun
deriving DecidableEq, Repr

/-- `u8::to_ascii_lowercase`. -/
def toLower (c : Nat) : Nat := if 65 ≤ c ∧ c ≤ 90 then c + 32 else c

/-- `Compiler::store` in grep.rs: capacity-checked push.  Fails with
`ComplexPattern` when `pbuf.len() >= pmax && pmax != 0`. -/
def store (pmax : Nat) (pbuf : List Nat) (op : Nat) : Except PatternErrorKind (List Nat) :=
  if pmax ≤ pbuf.length ∧ pmax ≠ 0 then .error .complexPattern
  else .ok (pbuf ++ [op])

/-- `store`, with a compile error paired with the compiler source
offset current at the moment the error is raised (this is how
`Pattern::compile_` builds a `PatternError` from the `Compiler`). -/
def storeAt (pmax : Nat) (pbuf : List Nat) (op off : Nat) :
    Except (PatternErrorKind × Nat) (List Nat) :=
  match store pmax pbuf op with
  | .error k => .error (k, off)
  | .ok b => .ok b

/-- The body of the `loop` in `Compiler::cclass` (grep.rs): consume
source bytes until an unescaped `]`.  `cs` is `class_start`, the index
of the class length byte; `off` is the compiler source offset; the
result is the offset and buffer after the closing `]`.  The `-` range
case pops the previously stored byte (`self.pbuf.pop().unwrap()`),
stores `RANGE`, the low byte, and only then consumes and stores the
high byte, exactly as in the source. -/
def cclassLoop (src : List Nat) (pmax cs : Nat) (off : Nat) (pbuf : List Nat) :
    Except (PatternErrorKind × Nat) (Nat × List Nat) :=
  if _h : off < src.length then
    if src.getD off 0 = 93 then .ok (off + 1, pbuf)
    else if src.getD off 0 = 92 then
      if h2 : off + 1 < src.length then
        match storeAt pmax pbuf (toLower (src.getD (off + 1) 0)) (off + 2) with
        | .error e => .error e
        | .ok pbuf => cclassLoop src pmax cs (off + 2) pbuf
      else .error (.classBackslashUnterminated, off + 1)
    else if _h3 : src.getD off 0 = 45 ∧ 1 < pbuf.length - cs ∧ off + 1 < src.length
        ∧ src.getD (off + 1) 0 ≠ 93 then
      -- a char range: pop the low byte, store RANGE, low, then bump and store the high byte
      match storeAt pmax pbuf.dropLast RANGE (off + 1) with
      | .error e => .error e
      | .ok pbuf2 =>
        match storeAt pmax pbuf2 (pbuf.getLastD 0) (off + 1) with
        | .error e => .error e
        | .ok pbuf3 =>
          match storeAt pmax pbuf3 (toLower (src.getD (off + 1) 0)) (off + 2) with
          | .error e => .error e
          | .ok pbuf4 => cclassLoop src pmax cs (off + 2) pbuf4
    else
      match storeAt pmax pbuf (toLower (src.getD off 0)) (off + 1) with
      | .error e => .error e
      | .ok pbuf => cclassLoop src pmax cs (off + 1) pbuf
  else .error (.classUnterminated, off)
termination_by src.length - off
decreasing_by all_goals omega

theorem cclassLoop_offset (src : List Nat) (pmax cs : Nat) :
    ∀ off pbuf off2 out, cclassLoop src pmax cs off pbuf = .ok (off2, out) →
      off < off2 ∧ off2 ≤ src.length := by
  intro off pbuf
  induction off, pbuf using cclassLoop.induct src pmax cs with
  | case1 off pbuf hlt hc =>
    intro off2 out h
    rw [cclassLoop] at h
    simp only [dif_pos hlt, if_pos hc, Except.ok.injEq, Prod.mk.injEq] at h
    omega
  | case2 off pbuf hlt hc hesc h2 e herr =>
    intro off2 out h
    rw [cclassLoop] at h
    simp only [dif_pos hlt, if_neg hc, if_pos hesc, dif_pos h2, herr] at h
    exact Except.noConfusion h
  | case3 off pbuf hlt hc hesc h2 pbuf2 heq ih =>
    intro off2 out h
    rw [cclassLoop] at h
    simp only [dif_pos hlt, if_neg hc, if_pos hesc, dif_pos h2, heq] at h
    have := ih off2 out h
    omega
  | case4 off pbuf hlt hc hesc h2 =>
    intro off2 out h
    rw [cclassLoop] at h
    simp only [dif_pos hlt, if_neg hc, if_pos hesc, dif_neg h2] at h
    exact Except.noConfusion h
  | case5 off pbuf hlt hc hesc h3 e herr =>
    intro off2 out h
    rw [cclassLoop] at h
    simp only [dif_pos hlt, if_neg hc, if_neg hesc, dif_pos h3, herr] at h
    exact Except.noConfusion h
  | case6 off pbuf hlt hc hesc h3 pbuf2 heq e herr =>
    intro off2 out h
    rw [cclassLoop] at h
    simp only [dif_pos hlt, if_neg hc, if_neg hesc, dif_pos h3, heq, herr] at h
    exact Except.noConfusion h
  | case7 off pbuf hlt hc hesc h3 pbuf2 heq pbuf3 heq2 e herr =>
    intro off2 out h
    rw [cclassLoop] at h
    simp only [dif_pos hlt, if_neg hc, if_neg hesc, dif_pos h3, heq, heq2, herr] at h
    exact Except.noConfusion h
  | case8 off pbuf hlt hc hesc h3 pbuf2 heq pbuf3 heq2 pbuf4 heq3 ih =>
    intro off2 out h
    rw [cclassLoop] at h
    simp only [dif_pos hlt, if_neg hc, if_neg hesc, dif_pos h3, heq, heq2, heq3] at h
    have := ih off2 out h
    omega
  | case9 off pbuf hlt hc hesc h3 e herr =>
    intro off2 out h
    rw [cclassLoop] at h
    simp only [dif_pos hlt, if_neg hc, if_neg hesc, dif_neg h3, herr] at h
    exact Except.noConfusion h
  | case10 off pbuf hlt hc hesc h3 pbuf2 heq ih =>
    intro off2 out h
    rw [cclassLoop] at h
    simp only [dif_pos hlt, if_neg hc, if_neg hesc, dif_neg h3, heq] at h
    have := ih off2 out h
    omega
  | case11 off pbuf hge =>
    intro off2 out h
    rw [cclassLoop] at h
    simp only [dif_neg hge] at h
    exact Except.noConfusion h

/-- The part of `Compiler::cclass` after the `CLASS`/`NCLASS` choice:
store the class opcode, remember `class_start`, store the placeholder
length byte, run the loop, then check and patch the length. -/
def cclassTail (src : List Nat) (pmax cls : Nat) (off : Nat) (pbuf : List Nat) :
    Except (PatternErrorKind × Nat) (Nat × List Nat) :=
  match storeAt pmax pbuf cls off with
  | .error e => .error e
  | .ok pbuf1 =>
    -- `let class_start = self.pbuf.len();` (the index of the length byte)
    match storeAt pmax pbuf1 0 off with
    | .error e => .error e
    | .ok pbuf2 =>
      match cclassLoop src pmax pbuf1.length off pbuf2 with
      | .error e => .error e
      | .ok (off2, pbuf3) =>
        -- `let len = self.pbuf.len() - class_start;`
        if 256 ≤ pbuf3.length - pbuf1.length then .error (.classTooLarge, off2)
        else if pbuf3.length - pbuf1.length = 0 then
          -- BUG preserved from grep.rs: the length includes the length
          -- byte itself, so this branch is unreachable.
          .error (.classEmpty, off2)
        else .ok (off2, pbuf3.set pbuf1.length (pbuf3.length - pbuf1.length))

/-- `Compiler::cclass` in grep.rs: an optional leading `^` selects a
negated class, then the class opcode and a placeholder length byte are
stored, the loop above consumes the class body, and finally the length
byte (which counts itself) is checked against 256 and patched in
place.  `off` is the compiler offset just after the `[`.  The result
is the offset after the closing `]` together with the new buffer. -/
def cclassFull (src : List Nat) (pmax : Nat) (off : Nat) (pbuf : List Nat) :
    Except (PatternErrorKind × Nat) (Nat × List Nat) :=
  -- `self.peek() == Some(b'^')`
  if off < src.length ∧ src.getD off 0 = 94 then
    cclassTail src pmax NCLASSOP (off + 1) pbuf
  else
    cclassTail src pmax CLASSOP off pbuf

theorem cclassTail_offset {src : List Nat} {pmax cls off : Nat} {pbuf : List Nat}
    {off2 : Nat} {out : List Nat}
    (h : cclassTail src pmax cls off pbuf = .ok (off2, out)) :
    off < off2 ∧ off2 ≤ src.length := by
  unfold cclassTail at h
  cases h1 : storeAt pmax pbuf cls off with
  | error e => simp only [h1] at h; exact Except.noConfusion h
  | ok pbuf1 =>
    simp only [h1] at h
    cases h2 : storeAt pmax pbuf1 0 off with
    | error e => simp only [h2] at h; exact Except.noConfusion h
    | ok pbuf2 =>
      simp only [h2] at h
      cases h3 : cclassLoop src pmax pbuf1.length off pbuf2 with
      | error e => simp only [h3] at h; exact Except.noConfusion h
      | ok p =>
        obtain ⟨o2, pbuf3⟩ := p
        simp only [h3] at h
        have hoff := cclassLoop_offset src pmax pbuf1.length off pbuf2 o2 pbuf3 h3
        by_cases hlarge : 256 ≤ pbuf3.length - pbuf1.length
        · simp only [if_pos hlarge] at h; exact Except.noConfusion h
        · simp only [if_neg hlarge] at h
          by_cases hz : pbuf3.length - pbuf1.length = 0
          · simp only [if_pos hz] at h; exact Except.noConfusion h
          · simp only [if_neg hz, Except.ok.injEq, Prod.mk.injEq] at h
            omega

theorem cclassFull_offset {src : List Nat} {pmax off : Nat} {pbuf : List Nat}
    {off2 : Nat} {out : List Nat}
    (h : cclassFull src pmax off pbuf = .ok (off2, out)) :
    off < off2 ∧ off2 ≤ src.length := by
  unfold cclassFull at h
  by_cases hc : off < src.length ∧ src.getD off 0 = 94
  · simp only [if_pos hc] at h
    have := cclassTail_offset h
    omega
  · simp only [if_neg hc] at h
    exact cclassTail_offset h

/-- The result of `self.pbuf.copy_within(pat_start..pat_end, pat_start + 1)`
followed by `self.pbuf[pat_start] = rep` in `Compiler::compile`
(grep.rs): the bytes `[ps, pe)` are shifted up by one (memmove
semantics, positions at most `ps` and at least `pe + 1` unchanged) and
the repetition opcode is written at `ps`. -/
def copyShiftSet (l : List Nat) (ps pe rep : Nat) : List Nat :=
  (l.take (ps + 1) ++ (l.drop ps).take (pe - ps) ++ l.drop (pe + 1)).set ps rep

/-- The condition under which `*`, `+`, `-` are illegal in
`Compiler::compile`: `matches!(self.pbuf.last(), None | Some(&(BOL | EOL | STAR | PLUS | MINUS)))`.
Note that this inspects the last BYTE of the output buffer, not the
operator of the last atom. -/
def repIllegal (pbuf : List Nat) : Prop :=
  pbuf.getLast? = none ∨ pbuf.getLast? = some BOL ∨ pbuf.getLast? = some EOL ∨
    pbuf.getLast? = some STAR ∨ pbuf.getLast? = some PLUS ∨ pbuf.getLast? = some MINUS

instance (pbuf : List Nat) : Decidable (repIllegal pbuf) := by
  unfold repIllegal; infer_instance

/-- The repetition opcode chosen for `*` / `-` / anything else (`+`),
as in the `match c` at the end of the repetition case. -/
def repOp (c : Nat) : Nat := if c = 42 then STAR else if c = 45 then MINUS else PLUS

/-- The `while let Some(c) = self.bump()` loop of `Compiler::compile`
(grep.rs).  `ps` is `pat_start`, `off` the compiler source offset,
`pbuf` the output buffer.  Each iteration consumes one source byte
(plus one for `:x`, `\x` and class bodies) and dispatches exactly as
the Rust `match`: the repetition operators first (they wrap the bytes
from `pat_start` on, via two placeholder stores, a copy up by one and
an overwrite of `pbuf[pat_start]`), then `^`, `$`, `.`, `[`, `:`, and
the default literal case with its backslash handling. -/
def compileLoop (src : List Nat) (pmax ps off : Nat) (pbuf : List Nat) :
    Except (PatternErrorKind × Nat) (List Nat) :=
  if _h : off < src.length then
    if src.getD off 0 = 42 ∨ src.getD off 0 = 43 ∨ src.getD off 0 = 45 then
      -- `*`, `+`, `-`
      if repIllegal pbuf then .error (.illegalOccurrence, off + 1)
      else
        match storeAt pmax pbuf ENDPAT (off + 1) with
        | .error e => .error e
        | .ok pbuf1 =>
          match storeAt pmax pbuf1 ENDPAT (off + 1) with
          | .error e => .error e
          | .ok pbuf2 =>
            compileLoop src pmax ps (off + 1)
              (copyShiftSet pbuf2 ps pbuf.length (repOp (src.getD off 0)))
    else if src.getD off 0 = 94 then
      -- `^` (pat_start becomes the buffer length before the store)
      match storeAt pmax pbuf BOL (off + 1) with
      | .error e => .error e
      | .ok pbuf1 => compileLoop src pmax pbuf.length (off + 1) pbuf1
    else if src.getD off 0 = 36 then
      -- `$`
      match storeAt pmax pbuf EOL (off + 1) with
      | .error e => .error e
      | .ok pbuf1 => compileLoop src pmax pbuf.length (off + 1) pbuf1
    else if src.getD off 0 = 46 then
      -- `.`
      match storeAt pmax pbuf ANY (off + 1) with
      | .error e => .error e
      | .ok pbuf1 => compileLoop src pmax pbuf.length (off + 1) pbuf1
    else if src.getD off 0 = 91 then
      -- `[`
      match hcc : cclassFull src pmax (off + 1) pbuf with
      | .error e => .error e
      | .ok (off2, pbuf1) => compileLoop src pmax pbuf.length off2 pbuf1
    else if src.getD off 0 = 58 then
      -- `:`
      if off + 1 < src.length then
        if src.getD (off + 1) 0 = 97 ∨ src.getD (off + 1) 0 = 65 then
          match storeAt pmax pbuf ALPHA (off + 2) with
          | .error e => .error e
          | .ok pbuf1 => compileLoop src pmax pbuf.length (off + 2) pbuf1
        else if src.getD (off + 1) 0 = 100 ∨ src.getD (off + 1) 0 = 68 then
          match storeAt pmax pbuf DIGIT (off + 2) with
          | .error e => .error e
          | .ok pbuf1 => compileLoop src pmax pbuf.length (off + 2) pbuf1
        else if src.getD (off + 1) 0 = 110 ∨ src.getD (off + 1) 0 = 78 then
          match storeAt pmax pbuf NALPHA (off + 2) with
          | .error e => .error e
          | .ok pbuf1 => compileLoop src pmax pbuf.length (off + 2) pbuf1
        else if src.getD (off + 1) 0 = 32 then
          match storeAt pmax pbuf PUNCT (off + 2) with
          | .error e => .error e
          | .ok pbuf1 => compileLoop src pmax pbuf.length (off + 2) pbuf1
        else .error (.unknownColonType, off + 2)
      else .error (.noColonType, off + 1)
    else if src.getD off 0 = 92 ∧ off + 1 < src.length then
      -- a backslash escape with a following byte: the escaped byte is stored
      match storeAt pmax pbuf CHAR (off + 2) with
      | .error e => .error e
      | .ok pbuf1 =>
        match storeAt pmax pbuf1 (toLower (src.getD (off + 1) 0)) (off + 2) with
        | .error e => .error e
        | .ok pbuf2 => compileLoop src pmax pbuf.length (off + 2) pbuf2
    else
      -- an ordinary literal byte (including a trailing backslash)
      match storeAt pmax pbuf CHAR (off + 1) with
      | .error e => .error e
      | .ok pbuf1 =>
        match storeAt pmax pbuf1 (toLower (src.getD off 0)) (off + 1) with
        | .error e => .error e
        | .ok pbuf2 => compileLoop src pmax pbuf.length (off + 1) pbuf2
  else .ok pbuf
termination_by src.length - off
decreasing_by
  all_goals first
    | omega
    | (have hfo := cclassFull_offset hcc; omega)

/-- `Pattern::compile` / `Compiler::compile` in grep.rs: run the main
loop from offset 0 with an empty buffer, then append the final
`ENDPAT` and the trailing zero byte.  Errors carry the
`PatternErrorKind` together with the compiler source offset at the
time of the error, exactly the data `Pattern::compile_` packs into a
`PatternError`. -/
def compile (src : List Nat) (pmax : Nat) : Except (PatternErrorKind × Nat) (List Nat) :=
  match compileLoop src pmax 0 0 [] with
  | .error e => .error e
  | .ok pbuf =>
    match storeAt pmax pbuf ENDPAT src.length with
    | .error e => .error e
    | .ok pbuf1 =>
      match storeAt pmax pbuf1 0 src.length with
      | .error e => .error e
      | .ok pbuf2 => .ok pbuf2


/-! ### The matcher (src/buffer.rs cursors and `pmatch` in src/grep.rs) -/

/-- `LineCursor` in src/buffer.rs: a borrowed line and a signed offset. -/
structure LineCursor where
  line : List Nat
  offset : Int
deriving DecidableEq, Repr

/-- `PatternCursor` in src/buffer.rs: the compiled pattern and a signed offset. -/
structure PatternCursor where
  pattern : List Nat
  offset : Int
deriving DecidableEq, Repr

/-- `LineCursor::peek`: in bounds reads the byte; exactly at the line
length reads the simulated NUL terminator 0; anything else is a
`LineOverrun`.  A negative `isize` offset in Rust is cast to a huge
`usize`, which fails both bounds tests, hence the overrun branch. -/
def lcPeek (lc : LineCursor) : Except MatchError Nat :=
  if lc.offset < 0 then .error .lineOverrun
  else if lc.offset < (lc.line.length : Int) then .ok (lc.line.getD lc.offset.toNat 0)
  else if lc.offset = (lc.line.length : Int) then .ok 0
  else .error .lineOverrun

/-- The offset advance of `LineCursor::next` (the Rust `next` is
`peek` followed by `self.offset += 1`). -/
def lcAdv (lc : LineCursor) : LineCursor := { lc with offset := lc.offset + 1 }

/-- `LineCursor::set_offset`. -/
def lcSet (lc : LineCursor) (o : Int) : LineCursor := { lc with offset := o }

/-- `LineCursor::bump`. -/
def lcBump (lc : LineCursor) (d : Int) : LineCursor := { lc with offset := lc.offset + d }

/-- `PatternCursor::peek`: any out-of-bounds read is a `PatternOverrun`. -/
def pcPeek (pc : PatternCursor) : Except MatchError Nat :=
  if pc.offset < 0 then .error .patternOverrun
  else if pc.offset < (pc.pattern.length : Int) then .ok (pc.pattern.getD pc.offset.toNat 0)
  else .error .patternOverrun

/-- The offset advance of `PatternCursor::next`. -/
def pcAdv (pc : PatternCursor) : PatternCursor := { pc with offset := pc.offset + 1 }

/-- `PatternCursor::bump`. -/
def pcBump (pc : PatternCursor) (d : Int) : PatternCursor := { pc with offset := pc.offset + d }

/-- Sequencing of a cursor read inside the matcher: a read error
aborts the whole match attempt (the `?` operator in grep.rs). -/
def ebind {a b : Type} (x : Except MatchError a) (f : a → Option (Except MatchError b)) :
    Option (Except MatchError b) :=
  match x with
  | .error e => some (.error e)
  | .ok v => f v

/-- Sequencing of a fueled sub-computation inside the matcher: `none`
(out of fuel) propagates, an error propagates, a value continues. -/
def mbind {a b : Type} (x : Option (Except MatchError a))
    (f : a → Option (Except MatchError b)) : Option (Except MatchError b) :=
  match x with
  | none => none
  | some (.error e) => some (.error e)
  | some (.ok v) => f v

/-- The `CLASS | NCLASS` inner `loop` of `pmatch` (grep.rs): scan the
class entries against the (lowercased) line byte `c`, counting the
signed byte count `n` down; a `RANGE` entry consumes two extra pattern
bytes and subtracts 2; the loop breaks on a match or when `n <= 1`
after the decrement.  Returns `n` and the pattern cursor at the break. -/
def classLoop : Nat → Nat → Int → PatternCursor → Option (Except MatchError (Int × PatternCursor))
  | 0, _, _, _ => none
  | fuel + 1, c, n, pc =>
    ebind (pcPeek pc) fun op =>
    let pc := pcAdv pc
    if op = RANGE then
      ebind (pcPeek pc) fun low =>
      let pc := pcAdv pc
      ebind (pcPeek pc) fun high =>
      let pc := pcAdv pc
      if (low : Int) ≤ (c : Int) ∧ (c : Int) ≤ (high : Int) then some (.ok (n - 2, pc))
      else if n - 2 - 1 ≤ 1 then some (.ok (n - 2 - 1, pc))
      else classLoop fuel c (n - 2 - 1) pc
    else if op = c then some (.ok (n, pc))
    else if n - 1 ≤ 1 then some (.ok (n - 1, pc))
    else classLoop fuel c (n - 1) pc

/-- The `while pattern.next()? != ENDPAT {}` loops of `pmatch`
(grep.rs), which skip the pattern cursor past a sub-pattern. -/
def skipSub : Nat → PatternCursor → Option (Except MatchError PatternCursor)
  | 0, _ => none
  | fuel + 1, pc =>
    ebind (pcPeek pc) fun op =>
    let pc := pcAdv pc
    if op = ENDPAT then some (.ok pc) else skipSub fuel pc

mutual

/-- `pmatch` in grep.rs.  Each call handles one opcode of the main
`loop` and tail-calls itself to continue the loop; `ENDPAT` returns
the current line offset.  `some (.ok (some end))` is Rust
`Ok(Some(end))`, `some (.ok none)` is `Ok(None)`, `some (.error e)` is
`Err(e)`, and `none` means the fuel ran out. -/
def pmatch : Nat → LineCursor → PatternCursor → Option (Except MatchError (Option Int))
  | 0, _, _ => none
  | fuel + 1, line, pc0 =>
    ebind (pcPeek pc0) fun op =>
    let pc := pcAdv pc0
    if op = ENDPAT then some (.ok (some line.offset))
    else if op = CHAR then
      ebind (lcPeek line) fun c =>
      let line := lcAdv line
      ebind (pcPeek pc) fun p =>
      let pc := pcAdv pc
      if toLower c ≠ p then some (.ok none) else pmatch fuel line pc
    else if op = BOL then
      if line.offset = 0 then pmatch fuel line pc else some (.ok none)
    else if op = EOL then
      if line.offset = (line.line.length : Int) then pmatch fuel line pc else some (.ok none)
    else if op = ANY then
      ebind (lcPeek line) fun c =>
      let line := lcAdv line
      if c = 0 then some (.ok none) else pmatch fuel line pc
    else if op = DIGIT then
      ebind (lcPeek line) fun c =>
      let line := lcAdv line
      if 48 ≤ c ∧ c ≤ 57 then pmatch fuel line pc else some (.ok none)
    else if op = ALPHA then
      ebind (lcPeek line) fun c =>
      let line := lcAdv line
      if (65 ≤ c ∧ c ≤ 90) ∨ (97 ≤ c ∧ c ≤ 122) then pmatch fuel line pc else some (.ok none)
    else if op = NALPHA then
      ebind (lcPeek line) fun c =>
      let line := lcAdv line
      if (65 ≤ c ∧ c ≤ 90) ∨ (97 ≤ c ∧ c ≤ 122) ∨ (48 ≤ c ∧ c ≤ 57) then pmatch fuel line pc
      else some (.ok none)
    else if op = PUNCT then
      ebind (lcPeek line) fun c =>
      let line := lcAdv line
      if c = 0 ∨ 32 < c then some (.ok none) else pmatch fuel line pc
    else if op = CLASSOP ∨ op = NCLASSOP then
      ebind (lcPeek line) fun c0 =>
      let line := lcAdv line
      ebind (pcPeek pc) fun n0 =>
      let pc := pcAdv pc
      mbind (classLoop fuel (toLower c0) (n0 : Int) pc) fun np =>
      if (op = CLASSOP) ↔ (np.1 ≤ 1) then some (.ok none)
      else pmatch fuel line (if op = CLASSOP then pcBump np.2 (np.1 - 2) else np.2)
    else if op = MINUS then
      mbind (pmatch fuel line pc) fun r =>
      mbind (skipSub fuel pc) fun pc2 =>
      pmatch fuel (match r with | some e => lcSet line e | none => line) pc2
    else if op = PLUS ∨ op = STAR then
      mbind (if op = PLUS then pmatch fuel line pc else some (.ok (some line.offset))) fun r =>
      match r with
      | none => some (.ok none)
      | some e =>
        mbind (greedyLoop fuel (lcSet line e) pc) fun line2 =>
        mbind (skipSub fuel pc) fun pc2 =>
        backtrackLoop fuel e line2 pc2
    else some (.error (.badOpcode op))

/-- The greedy `while line.peek()? != b'\0'` loop of the `PLUS | STAR`
case: repeat the sub-pattern as long as it matches, keeping the last
end offset. -/
def greedyLoop : Nat → LineCursor → PatternCursor → Option (Except MatchError LineCursor)
  | 0, _, _ => none
  | fuel + 1, line, pc =>
    ebind (lcPeek line) fun c =>
    if c = 0 then some (.ok line)
    else
      mbind (pmatch fuel line pc) fun r =>
      match r with
      | some e => greedyLoop fuel (lcSet line e) pc
      | none => some (.ok line)

/-- The backtracking `while line.offset() >= start` loop of the
`PLUS | STAR` case: try the rest of the pattern at each offset from the
greedy end down to `start`. -/
def backtrackLoop : Nat → Int → LineCursor → PatternCursor → Option (Except MatchError (Option Int))
  | 0, _, _, _ => none
  | fuel + 1, start, line, pc =>
    if start ≤ line.offset then
      mbind (pmatch fuel line pc) fun r =>
      match r with
      | some e => some (.ok (some e))
      | none => backtrackLoop fuel start (lcBump line (-1)) pc
    else some (.ok none)

end

/-- `Pattern::is_match_anchored` in grep.rs: run `pmatch` from the
given line offset and the start of the pattern, and report whether it
returned `Some`. -/
def isMatchAnchored (fuel : Nat) (pbuf line : List Nat) (off : Nat) :
    Option (Except MatchError Bool) :=
  match pmatch fuel ⟨line, (off : Int)⟩ ⟨pbuf, 0⟩ with
  | none => none
  | some (.error e) => some (.error e)
  | some (.ok r) => some (.ok r.isSome)

/-- The body of the `for i in start..line.len()` loop of
`Pattern::is_match_at` (grep.rs): try an anchored match at each offset
in the list, returning `Ok(true)` at the first success and `Ok(false)`
when the offsets are exhausted. -/
def isMatchScan (fuel : Nat) (pbuf line : List Nat) : List Nat → Option (Except MatchError Bool)
  | [] => some (.ok false)
  | i :: rest =>
    match isMatchAnchored fuel pbuf line i with
    | none => none
    | some (.error e) => some (.error e)
    | some (.ok true) => some (.ok true)
    | some (.ok false) => isMatchScan fuel pbuf line rest

/-- `Pattern::is_match_at` in grep.rs: scan the half-open offset range
`start..line.len()` (`List.range' start (line.length - start)` is
exactly the list `[start, start + 1, ..., line.length - 1]`). -/
def isMatchAt (fuel : Nat) (pbuf line : List Nat) (start : Nat) :
    Option (Except MatchError Bool) :=
  isMatchScan fuel pbuf line (List.range' start (line.length - start))

/-- `Pattern::is_match` in grep.rs: `is_match_at(line, 0)`. -/
def isMatch (fuel : Nat) (pbuf line : List Nat) : Option (Except MatchError Bool) :=
  isMatchAt fuel pbuf line 0


/-! ### Fuel monotonicity of the matcher

A `some` result of a fueled run is preserved by every larger fuel, so
a `some` value at any fuel is the result of the (unbounded) Rust
computation. -/

theorem ebind_mono {a b : Type} {x : Except MatchError a}
    {f g : a → Option (Except MatchError b)}
    (hf : ∀ v r, f v = some r → g v = some r) :
    ∀ r, ebind x f = some r → ebind x g = some r := by
  intro r h
  cases x with
  | error e => exact h
  | ok v => exact hf v r h

theorem mbind_mono {a b : Type} {x y : Option (Except MatchError a)}
    {f g : a → Option (Except MatchError b)}
    (hx : ∀ v, x = some v → y = some v)
    (hf : ∀ v r, f v = some r → g v = some r) :
    ∀ r, mbind x f = some r → mbind y g = some r := by
  intro r h
  cases x with
  | none => simp [mbind] at h
  | some v =>
    rw [hx v rfl]
    cases v with
    | error e => exact h
    | ok a => exact hf a r h

theorem classLoop_mono : ∀ fuel c n pc r,
    classLoop fuel c n pc = some r → classLoop (fuel + 1) c n pc = some r := by
  intro fuel
  induction fuel with
  | zero => intro c n pc r h; simp [classLoop] at h
  | succ fuel ih =>
    intro c n pc r h
    rw [classLoop] at h ⊢
    refine ebind_mono ?_ r h
    intro op r1 h1
    simp only at h1 ⊢
    by_cases hR : op = RANGE
    · rw [if_pos hR] at h1 ⊢
      refine ebind_mono ?_ r1 h1
      intro low r2 h2
      refine ebind_mono ?_ r2 h2
      intro high r3 h3
      simp only at h3 ⊢
      by_cases hin : (low : Int) ≤ (c : Int) ∧ (c : Int) ≤ (high : Int)
      · rw [if_pos hin] at h3 ⊢; exact h3
      · rw [if_neg hin] at h3 ⊢
        by_cases hn : n - 2 - 1 ≤ 1
        · rw [if_pos hn] at h3 ⊢; exact h3
        · rw [if_neg hn] at h3 ⊢; exact ih _ _ _ _ h3
    · rw [if_neg hR] at h1 ⊢
      by_cases hc : op = c
      · rw [if_pos hc] at h1 ⊢; exact h1
      · rw [if_neg hc] at h1 ⊢
        by_cases hn : n - 1 ≤ 1
        · rw [if_pos hn] at h1 ⊢; exact h1
        · rw [if_neg hn] at h1 ⊢; exact ih _ _ _ _ h1

theorem skipSub_mono : ∀ fuel pc r,
    skipSub fuel pc = some r → skipSub (fuel + 1) pc = some r := by
  intro fuel
  induction fuel with
  | zero => intro pc r h; simp [skipSub] at h
  | succ fuel ih =>
    intro pc r h
    rw [skipSub] at h ⊢
    refine ebind_mono ?_ r h
    intro op r1 h1
    simp only at h1 ⊢
    by_cases he : op = ENDPAT
    · rw [if_pos he] at h1 ⊢; exact h1
    · rw [if_neg he] at h1 ⊢; exact ih _ _ h1

theorem matcher_mono : ∀ fuel,
    (∀ line pc r, pmatch fuel line pc = some r → pmatch (fuel + 1) line pc = some r) ∧
    (∀ line pc r, greedyLoop fuel line pc = some r → greedyLoop (fuel + 1) line pc = some r) ∧
    (∀ s line pc r,
      backtrackLoop fuel s line pc = some r → backtrackLoop (fuel + 1) s line pc = some r) := by
  intro fuel
  induction fuel with
  | zero =>
    refine ⟨?_, ?_, ?_⟩
    · intro line pc r h; simp [pmatch] at h
    · intro line pc r h; simp [greedyLoop] at h
    · intro s line pc r h; simp [backtrackLoop] at h
  | succ fuel ih =>
    obtain ⟨ihp, ihg, ihb⟩ := ih
    refine ⟨?_, ?_, ?_⟩
    · -- pmatch
      intro line pc0 r h
      rw [pmatch] at h ⊢
      refine ebind_mono ?_ r h
      intro op r1 h1
      simp only at h1 ⊢
      by_cases hEP : op = ENDPAT
      · rw [if_pos hEP] at h1 ⊢; exact h1
      · rw [if_neg hEP] at h1 ⊢
        by_cases hCH : op = CHAR
        · rw [if_pos hCH] at h1 ⊢
          refine ebind_mono ?_ r1 h1
          intro c r2 h2
          refine ebind_mono ?_ r2 h2
          intro p r3 h3
          simp only at h3 ⊢
          by_cases hne : toLower c ≠ p
          · rw [if_pos hne] at h3 ⊢; exact h3
          · rw [if_neg hne] at h3 ⊢; exact ihp _ _ _ h3
        · rw [if_neg hCH] at h1 ⊢
          by_cases hBOL : op = BOL
          · rw [if_pos hBOL] at h1 ⊢
            by_cases hs : line.offset = 0
            · rw [if_pos hs] at h1 ⊢; exact ihp _ _ _ h1
            · rw [if_neg hs] at h1 ⊢; exact h1
          · rw [if_neg hBOL] at h1 ⊢
            by_cases hEOL : op = EOL
            · rw [if_pos hEOL] at h1 ⊢
              by_cases hs : line.offset = (line.line.length : Int)
              · rw [if_pos hs] at h1 ⊢; exact ihp _ _ _ h1
              · rw [if_neg hs] at h1 ⊢; exact h1
            · rw [if_neg hEOL] at h1 ⊢
              by_cases hANY : op = ANY
              · rw [if_pos hANY] at h1 ⊢
                refine ebind_mono ?_ r1 h1
                intro c r2 h2
                simp only at h2 ⊢
                by_cases hz : c = 0
                · rw [if_pos hz] at h2 ⊢; exact h2
                · rw [if_neg hz] at h2 ⊢; exact ihp _ _ _ h2
              · rw [if_neg hANY] at h1 ⊢
                by_cases hDIG : op = DIGIT
                · rw [if_pos hDIG] at h1 ⊢
                  refine ebind_mono ?_ r1 h1
                  intro c r2 h2
                  simp only at h2 ⊢
                  by_cases hd : 48 ≤ c ∧ c ≤ 57
                  · rw [if_pos hd] at h2 ⊢; exact ihp _ _ _ h2
                  · rw [if_neg hd] at h2 ⊢; exact h2
                · rw [if_neg hDIG] at h1 ⊢
                  by_cases hAL : op = ALPHA
                  · rw [if_pos hAL] at h1 ⊢
                    refine ebind_mono ?_ r1 h1
                    intro c r2 h2
                    simp only at h2 ⊢
                    by_cases ha : (65 ≤ c ∧ c ≤ 90) ∨ (97 ≤ c ∧ c ≤ 122)
                    · rw [if_pos ha] at h2 ⊢; exact ihp _ _ _ h2
                    · rw [if_neg ha] at h2 ⊢; exact h2
                  · rw [if_neg hAL] at h1 ⊢
                    by_cases hNA : op = NALPHA
                    · rw [if_pos hNA] at h1 ⊢
                      refine ebind_mono ?_ r1 h1
                      intro c r2 h2
                      simp only at h2 ⊢
                      by_cases ha : (65 ≤ c ∧ c ≤ 90) ∨ (97 ≤ c ∧ c ≤ 122) ∨ (48 ≤ c ∧ c ≤ 57)
                      · rw [if_pos ha] at h2 ⊢; exact ihp _ _ _ h2
                      · rw [if_neg ha] at h2 ⊢; exact h2
                    · rw [if_neg hNA] at h1 ⊢
                      by_cases hPU : op = PUNCT
                      · rw [if_pos hPU] at h1 ⊢
                        refine ebind_mono ?_ r1 h1
                        intro c r2 h2
                        simp only at h2 ⊢
                        by_cases hp : c = 0 ∨ 32 < c
                        · rw [if_pos hp] at h2 ⊢; exact h2
                        · rw [if_neg hp] at h2 ⊢; exact ihp _ _ _ h2
                      · rw [if_neg hPU] at h1 ⊢
                        by_cases hCL : op = CLASSOP ∨ op = NCLASSOP
                        · rw [if_pos hCL] at h1 ⊢
                          refine ebind_mono ?_ r1 h1
                          intro c0 r2 h2
                          refine ebind_mono ?_ r2 h2
                          intro n0 r3 h3
                          simp only at h3 ⊢
                          refine mbind_mono (classLoop_mono fuel _ _ _) ?_ r3 h3
                          intro np r4 h4
                          simp only at h4 ⊢
                          by_cases hiff : (op = CLASSOP) ↔ (np.1 ≤ 1)
                          · rw [if_pos hiff] at h4 ⊢; exact h4
                          · rw [if_neg hiff] at h4 ⊢; exact ihp _ _ _ h4
                        · rw [if_neg hCL] at h1 ⊢
                          by_cases hMI : op = MINUS
                          · rw [if_pos hMI] at h1 ⊢
                            refine mbind_mono (ihp _ _) ?_ r1 h1
                            intro r2 r3 h3
                            refine mbind_mono (skipSub_mono fuel _) ?_ r3 h3
                            intro pc2 r4 h4
                            exact ihp _ _ _ h4
                          · rw [if_neg hMI] at h1 ⊢
                            by_cases hPS : op = PLUS ∨ op = STAR
                            · rw [if_pos hPS] at h1 ⊢
                              by_cases hPL : op = PLUS
                              · rw [if_pos hPL] at h1 ⊢
                                refine mbind_mono (ihp _ _) ?_ r1 h1
                                intro r2 r3 h3
                                cases r2 with
                                | none => exact h3
                                | some e =>
                                  simp only at h3 ⊢
                                  refine mbind_mono (ihg _ _) ?_ r3 h3
                                  intro line2 r4 h4
                                  refine mbind_mono (skipSub_mono fuel _) ?_ r4 h4
                                  intro pc2 r5 h5
                                  exact ihb _ _ _ _ h5
                              · rw [if_neg hPL] at h1 ⊢
                                refine mbind_mono (fun v hv => hv) ?_ r1 h1
                                intro r2 r3 h3
                                cases r2 with
                                | none => exact h3
                                | some e =>
                                  simp only at h3 ⊢
                                  refine mbind_mono (ihg _ _) ?_ r3 h3
                                  intro line2 r4 h4
                                  refine mbind_mono (skipSub_mono fuel _) ?_ r4 h4
                                  intro pc2 r5 h5
                                  exact ihb _ _ _ _ h5
                            · rw [if_neg hPS] at h1 ⊢
                              exact h1
    · -- greedyLoop
      intro line pc r h
      rw [greedyLoop] at h ⊢
      refine ebind_mono ?_ r h
      intro c r1 h1
      simp only at h1 ⊢
      by_cases hz : c = 0
      · rw [if_pos hz] at h1 ⊢; exact h1
      · rw [if_neg hz] at h1 ⊢
        refine mbind_mono (ihp _ _) ?_ r1 h1
        intro r2 r3 h3
        cases r2 with
        | none => exact h3
        | some e => exact ihg _ _ _ h3
    · -- backtrackLoop
      intro s line pc r h
      rw [backtrackLoop] at h ⊢
      by_cases hge : s ≤ line.offset
      · rw [if_pos hge] at h ⊢
        refine mbind_mono (ihp _ _) ?_ r h
        intro r2 r3 h3
        cases r2 with
        | none => exact ihb _ _ _ _ h3
        | some e => exact h3
      · rw [if_neg hge] at h ⊢; exact h

theorem pmatch_mono_le {f1 f2 : Nat} (hle : f1 ≤ f2) :
    ∀ line pc r, pmatch f1 line pc = some r → pmatch f2 line pc = some r := by
  obtain ⟨k, rfl⟩ := Nat.exists_eq_add_of_le hle
  clear hle
  induction k with
  | zero => intro line pc r h; exact h
  | succ k ih =>
    intro line pc r h
    have h2 := (matcher_mono (f1 + k)).1 line pc r (ih line pc r h)
    have heq : f1 + (k + 1) = (f1 + k) + 1 := by omega
    rw [heq]
    exact h2

theorem isMatchAnchored_mono_le {f1 f2 : Nat} (hle : f1 ≤ f2) {pbuf line : List Nat} {off : Nat}
    {r : Except MatchError Bool} (h : isMatchAnchored f1 pbuf line off = some r) :
    isMatchAnchored f2 pbuf line off = some r := by
  unfold isMatchAnchored at h ⊢
  cases hp : pmatch f1 ⟨line, (off : Int)⟩ ⟨pbuf, 0⟩ with
  | none => rw [hp] at h; exact absurd h (by simp)
  | some v =>
    rw [hp] at h
    rw [pmatch_mono_le hle _ _ _ hp]
    exact h

theorem isMatchScan_mono_le {f1 f2 : Nat} (hle : f1 ≤ f2) {pbuf line : List Nat} :
    ∀ is r, isMatchScan f1 pbuf line is = some r → isMatchScan f2 pbuf line is = some r := by
  intro is
  induction is with
  | nil => intro r h; exact h
  | cons i rest ih =>
    intro r h
    rw [isMatchScan] at h ⊢
    cases ha : isMatchAnchored f1 pbuf line i with
    | none => rw [ha] at h; exact absurd h (by simp)
    | some v =>
      rw [ha] at h
      rw [isMatchAnchored_mono_le hle ha]
      cases v with
      | error e => exact h
      | ok b => cases b with
        | true => exact h
        | false => exact ih r h

theorem isMatch_mono_le {f1 f2 : Nat} (hle : f1 ≤ f2) {pbuf line : List Nat}
    {r : Except MatchError Bool} (h : isMatch f1 pbuf line = some r) :
    isMatch f2 pbuf line = some r :=
  isMatchScan_mono_le hle _ r h

/-- Two completed fueled runs of `is_match` agree: the fueled embedding
is deterministic on `some` results. -/
theorem isMatch_agree {f1 f2 : Nat} {pbuf line : List Nat} {r1 r2 : Except MatchError Bool}
    (h1 : isMatch f1 pbuf line = some r1) (h2 : isMatch f2 pbuf line = some r2) : r1 = r2 := by
  have g1 := isMatch_mono_le (Nat.le_max_left f1 f2) h1
  have g2 := isMatch_mono_le (Nat.le_max_right f1 f2) h2
  rw [g1] at g2
  exact Option.some.injEq .. ▸ g2


/-! ### Compile error characterization (offsets and kinds) -/

theorem storeAt_error {pmax : Nat} {pbuf : List Nat} {op off : Nat} {e : PatternErrorKind × Nat}
    (h : storeAt pmax pbuf op off = .error e) :
    e = (.complexPattern, off) ∧ pmax ≠ 0 := by
  unfold storeAt store at h
  by_cases hc : pmax ≤ pbuf.length ∧ pmax ≠ 0
  · rw [if_pos hc] at h
    simp only [Except.error.injEq] at h
    exact ⟨h.symm, hc.2⟩
  · rw [if_neg hc] at h
    exact absurd h (by simp)

theorem storeAt_ok {pmax : Nat} {pbuf : List Nat} {op off : Nat} {out : List Nat}
    (h : storeAt pmax pbuf op off = .ok out) : out = pbuf ++ [op] := by
  unfold storeAt store at h
  by_cases hc : pmax ≤ pbuf.length ∧ pmax ≠ 0
  · rw [if_pos hc] at h; exact absurd h (by simp)
  · rw [if_neg hc] at h
    simp only [Except.ok.injEq] at h
    exact h.symm

theorem storeAt_zero (pbuf : List Nat) (op off : Nat) :
    storeAt 0 pbuf op off = .ok (pbuf ++ [op]) := by
  unfold storeAt store
  simp

/-- Errors of the class body loop: a non-`ComplexPattern` error is
reported at an offset inside `1..=src.length`, and with `pmax = 0` a
`ComplexPattern` error cannot arise. -/
theorem cclassLoop_err (src : List Nat) (pmax cs : Nat) :
    ∀ off pbuf k o, 1 ≤ off → off ≤ src.length →
      cclassLoop src pmax cs off pbuf = .error (k, o) →
      (k ≠ .complexPattern → 1 ≤ o ∧ o ≤ src.length) ∧ (pmax = 0 → k ≠ .complexPattern) := by
  intro off pbuf
  induction off, pbuf using cclassLoop.induct src pmax cs with
  | case1 off pbuf hlt hc =>
    intro k o h1 h2 h
    rw [cclassLoop] at h
    simp only [dif_pos hlt, if_pos hc] at h
    exact Except.noConfusion h
  | case2 off pbuf hlt hc hesc h2 e herr =>
    intro k o ho1 ho2 h
    rw [cclassLoop] at h
    simp only [dif_pos hlt, if_neg hc, if_pos hesc, dif_pos h2, herr] at h
    obtain ⟨he, hz⟩ := storeAt_error herr
    simp only [Except.error.injEq] at h
    subst h
    obtain ⟨hk, hoo⟩ := Prod.mk.injEq .. ▸ he
    subst hk; subst hoo
    exact ⟨fun hne => absurd rfl hne, fun h0 => absurd h0 hz⟩
  | case3 off pbuf hlt hc hesc h2 pbuf2 heq ih =>
    intro k o ho1 ho2 h
    rw [cclassLoop] at h
    simp only [dif_pos hlt, if_neg hc, if_pos hesc, dif_pos h2, heq] at h
    exact ih k o (by omega) (by omega) h
  | case4 off pbuf hlt hc hesc h2 =>
    intro k o ho1 ho2 h
    rw [cclassLoop] at h
    simp only [dif_pos hlt, if_neg hc, if_pos hesc, dif_neg h2, Except.error.injEq] at h
    obtain ⟨hk, hoo⟩ := Prod.mk.injEq .. ▸ h
    subst hk; subst hoo
    refine ⟨fun _ => by omega, fun _ => by simp⟩
  | case5 off pbuf hlt hc hesc h3 e herr =>
    intro k o ho1 ho2 h
    rw [cclassLoop] at h
    simp only [dif_pos hlt, if_neg hc, if_neg hesc, dif_pos h3, herr] at h
    obtain ⟨he, hz⟩ := storeAt_error herr
    simp only [Except.error.injEq] at h
    subst h
    obtain ⟨hk, hoo⟩ := Prod.mk.injEq .. ▸ he
    subst hk; subst hoo
    exact ⟨fun hne => absurd rfl hne, fun h0 => absurd h0 hz⟩
  | case6 off pbuf hlt hc hesc h3 pbuf2 heq e herr =>
    intro k o ho1 ho2 h
    rw [cclassLoop] at h
    simp only [dif_pos hlt, if_neg hc, if_neg hesc, dif_pos h3, heq, herr] at h
    obtain ⟨he, hz⟩ := storeAt_error herr
    simp only [Except.error.injEq] at h
    subst h
    obtain ⟨hk, hoo⟩ := Prod.mk.injEq .. ▸ he
    subst hk; subst hoo
    exact ⟨fun hne => absurd rfl hne, fun h0 => absurd h0 hz⟩
  | case7 off pbuf hlt hc hesc h3 pbuf2 heq pbuf3 heq2 e herr =>
    intro k o ho1 ho2 h
    rw [cclassLoop] at h
    simp only [dif_pos hlt, if_neg hc, if_neg hesc, dif_pos h3, heq, heq2, herr] at h
    obtain ⟨he, hz⟩ := storeAt_error herr
    simp only [Except.error.injEq] at h
    subst h
    obtain ⟨hk, hoo⟩ := Prod.mk.injEq .. ▸ he
    subst hk; subst hoo
    exact ⟨fun hne => absurd rfl hne, fun h0 => absurd h0 hz⟩
  | case8 off pbuf hlt hc hesc h3 pbuf2 heq pbuf3 heq2 pbuf4 heq3 ih =>
    intro k o ho1 ho2 h
    rw [cclassLoop] at h
    simp only [dif_pos hlt, if_neg hc, if_neg hesc, dif_pos h3, heq, heq2, heq3] at h
    exact ih k o (by omega) (by omega) h
  | case9 off pbuf hlt hc hesc h3 e herr =>
    intro k o ho1 ho2 h
    rw [cclassLoop] at h
    simp only [dif_pos hlt, if_neg hc, if_neg hesc, dif_neg h3, herr] at h
    obtain ⟨he, hz⟩ := storeAt_error herr
    simp only [Except.error.injEq] at h
    subst h
    obtain ⟨hk, hoo⟩ := Prod.mk.injEq .. ▸ he
    subst hk; subst hoo
    exact ⟨fun hne => absurd rfl hne, fun h0 => absurd h0 hz⟩
  | case10 off pbuf hlt hc hesc h3 pbuf2 heq ih =>
    intro k o ho1 ho2 h
    rw [cclassLoop] at h
    simp only [dif_pos hlt, if_neg hc, if_neg hesc, dif_neg h3, heq] at h
    exact ih k o (by omega) (by omega) h
  | case11 off pbuf hge =>
    intro k o ho1 ho2 h
    rw [cclassLoop] at h
    simp only [dif_neg hge, Except.error.injEq] at h
    obtain ⟨hk, hoo⟩ := Prod.mk.injEq .. ▸ h
    subst hk; subst hoo
    exact ⟨fun _ => by omega, fun _ => by simp⟩


theorem cclassTail_err {src : List Nat} {pmax cls off : Nat} {pbuf : List Nat}
    {k : PatternErrorKind} {o : Nat} (ho1 : 1 ≤ off) (ho2 : off ≤ src.length)
    (h : cclassTail src pmax cls off pbuf = .error (k, o)) :
    (k ≠ .complexPattern → 1 ≤ o ∧ o ≤ src.length) ∧ (pmax = 0 → k ≠ .complexPattern) := by
  unfold cclassTail at h
  cases h1 : storeAt pmax pbuf cls off with
  | error e =>
    simp only [h1] at h
    obtain ⟨he, hz⟩ := storeAt_error h1
    simp only [Except.error.injEq] at h
    subst h
    obtain ⟨hk, hoo⟩ := Prod.mk.injEq .. ▸ he
    subst hk; subst hoo
    exact ⟨fun hne => absurd rfl hne, fun h0 => absurd h0 hz⟩
  | ok pbuf1 =>
    simp only [h1] at h
    cases h2 : storeAt pmax pbuf1 0 off with
    | error e =>
      simp only [h2] at h
      obtain ⟨he, hz⟩ := storeAt_error h2
      simp only [Except.error.injEq] at h
      subst h
      obtain ⟨hk, hoo⟩ := Prod.mk.injEq .. ▸ he
      subst hk; subst hoo
      exact ⟨fun hne => absurd rfl hne, fun h0 => absurd h0 hz⟩
    | ok pbuf2 =>
      simp only [h2] at h
      cases h3 : cclassLoop src pmax pbuf1.length off pbuf2 with
      | error e =>
        simp only [h3] at h
        simp only [Except.error.injEq] at h
        subst h
        exact cclassLoop_err src pmax pbuf1.length off pbuf2 k o ho1 ho2 h3
      | ok p =>
        obtain ⟨off2, pbuf3⟩ := p
        simp only [h3] at h
        have hoff := cclassLoop_offset src pmax pbuf1.length off pbuf2 off2 pbuf3 h3
        by_cases hlarge : 256 ≤ pbuf3.length - pbuf1.length
        · simp only [if_pos hlarge, Except.error.injEq] at h
          obtain ⟨hk, hoo⟩ := Prod.mk.injEq .. ▸ h
          subst hk; subst hoo
          exact ⟨fun _ => by omega, fun _ => by simp⟩
        · simp only [if_neg hlarge] at h
          by_cases hzl : pbuf3.length - pbuf1.length = 0
          · simp only [if_pos hzl, Except.error.injEq] at h
            obtain ⟨hk, hoo⟩ := Prod.mk.injEq .. ▸ h
            subst hk; subst hoo
            exact ⟨fun _ => by omega, fun _ => by simp⟩
          · simp only [if_neg hzl] at h
            exact Except.noConfusion h

theorem cclassFull_err {src : List Nat} {pmax off : Nat} {pbuf : List Nat}
    {k : PatternErrorKind} {o : Nat} (ho1 : 1 ≤ off) (ho2 : off ≤ src.length)
    (h : cclassFull src pmax off pbuf = .error (k, o)) :
    (k ≠ .complexPattern → 1 ≤ o ∧ o ≤ src.length) ∧ (pmax = 0 → k ≠ .complexPattern) := by
  unfold cclassFull at h
  by_cases hc : off < src.length ∧ src.getD off 0 = 94
  · rw [if_pos hc] at h
    exact cclassTail_err (by omega) (by omega) h
  · rw [if_neg hc] at h
    exact cclassTail_err ho1 ho2 h

/-- Errors of the main compile loop: a non-`ComplexPattern` error is
reported at an offset inside `1..=src.length`, and with `pmax = 0` a
`ComplexPattern` error cannot arise. -/
theorem compileLoop_err (src : List Nat) (pmax : Nat) :
    ∀ ps off pbuf k o, off ≤ src.length →
      compileLoop src pmax ps off pbuf = .error (k, o) →
      (k ≠ .complexPattern → 1 ≤ o ∧ o ≤ src.length) ∧ (pmax = 0 → k ≠ .complexPattern) := by
  intro ps off pbuf
  induction ps, off, pbuf using compileLoop.induct src pmax with
  | case1 ps off pbuf hlt hrep hbad =>
    intro k o hole h
    rw [compileLoop] at h
    simp only [dif_pos hlt, if_pos hrep, if_pos hbad, Except.error.injEq] at h
    obtain ⟨hk, hoo⟩ := Prod.mk.injEq .. ▸ h
    subst hk; subst hoo
    exact ⟨fun _ => by omega, fun _ => by simp⟩
  | case2 ps off pbuf hlt hrep hbad e herr =>
    intro k o hole h
    rw [compileLoop] at h
    simp only [dif_pos hlt, if_pos hrep, if_neg hbad, herr, Except.error.injEq] at h
    obtain ⟨he, hz⟩ := storeAt_error herr
    subst h
    obtain ⟨hk, hoo⟩ := Prod.mk.injEq .. ▸ he
    subst hk; subst hoo
    exact ⟨fun hne => absurd rfl hne, fun h0 => absurd h0 hz⟩
  | case3 ps off pbuf hlt hrep hbad pbuf1 heq e herr =>
    intro k o hole h
    rw [compileLoop] at h
    simp only [dif_pos hlt, if_pos hrep, if_neg hbad, heq, herr, Except.error.injEq] at h
    obtain ⟨he, hz⟩ := storeAt_error herr
    subst h
    obtain ⟨hk, hoo⟩ := Prod.mk.injEq .. ▸ he
    subst hk; subst hoo
    exact ⟨fun hne => absurd rfl hne, fun h0 => absurd h0 hz⟩
  | case4 ps off pbuf hlt hrep hbad pbuf1 heq pbuf2 heq2 ih =>
    intro k o hole h
    rw [compileLoop] at h
    simp only [dif_pos hlt, if_pos hrep, if_neg hbad, heq, heq2] at h
    exact ih k o (by omega) h
  | case5 ps off pbuf hlt hrep hbol e herr =>
    intro k o hole h
    rw [compileLoop] at h
    simp only [dif_pos hlt, if_neg hrep, if_pos hbol, herr, Except.error.injEq] at h
    obtain ⟨he, hz⟩ := storeAt_error herr
    subst h
    obtain ⟨hk, hoo⟩ := Prod.mk.injEq .. ▸ he
    subst hk; subst hoo
    exact ⟨fun hne => absurd rfl hne, fun h0 => absurd h0 hz⟩
  | case6 ps off pbuf hlt hrep hbol pbuf1 heq ih =>
    intro k o hole h
    rw [compileLoop] at h
    simp only [dif_pos hlt, if_neg hrep, if_pos hbol, heq] at h
    exact ih k o (by omega) h
  | case7 ps off pbuf hlt hrep hbol heol e herr =>
    intro k o hole h
    rw [compileLoop] at h
    simp only [dif_pos hlt, if_neg hrep, if_neg hbol, if_pos heol, herr, Except.error.injEq] at h
    obtain ⟨he, hz⟩ := storeAt_error herr
    subst h
    obtain ⟨hk, hoo⟩ := Prod.mk.injEq .. ▸ he
    subst hk; subst hoo
    exact ⟨fun hne => absurd rfl hne, fun h0 => absurd h0 hz⟩
  | case8 ps off pbuf hlt hrep hbol heol pbuf1 heq ih =>
    intro k o hole h
    rw [compileLoop] at h
    simp only [dif_pos hlt, if_neg hrep, if_neg hbol, if_pos heol, heq] at h
    exact ih k o (by omega) h
  | case9 ps off pbuf hlt hrep hbol heol hany e herr =>
    intro k o hole h
    rw [compileLoop] at h
    simp only [dif_pos hlt, if_neg hrep, if_neg hbol, if_neg heol, if_pos hany, herr,
      Except.error.injEq] at h
    obtain ⟨he, hz⟩ := storeAt_error herr
    subst h
    obtain ⟨hk, hoo⟩ := Prod.mk.injEq .. ▸ he
    subst hk; subst hoo
    exact ⟨fun hne => absurd rfl hne, fun h0 => absurd h0 hz⟩
  | case10 ps off pbuf hlt hrep hbol heol hany pbuf1 heq ih =>
    intro k o hole h
    rw [compileLoop] at h
    simp only [dif_pos hlt, if_neg hrep, if_neg hbol, if_neg heol, if_pos hany, heq] at h
    exact ih k o (by omega) h
  | case11 ps off pbuf hlt hrep hbol heol hany hcls e herr =>
    intro k o hole h
    rw [compileLoop] at h
    simp only [dif_pos hlt, if_neg hrep, if_neg hbol, if_neg heol, if_neg hany, if_pos hcls] at h
    split at h
    · rename_i e2 heq2
      simp only [Except.error.injEq] at h
      subst h
      exact cclassFull_err (by omega) (by omega) heq2
    · rename_i off2 pbuf1 heq2
      rw [herr] at heq2
      exact Except.noConfusion heq2
  | case12 ps off pbuf hlt hrep hbol heol hany hcls off2 pbuf1 heq ih =>
    intro k o hole h
    rw [compileLoop] at h
    simp only [dif_pos hlt, if_neg hrep, if_neg hbol, if_neg heol, if_neg hany, if_pos hcls] at h
    split at h
    · rename_i e2 heq2
      rw [heq] at heq2
      exact Except.noConfusion heq2
    · rename_i off2b pbuf1b heq2
      rw [heq] at heq2
      obtain ⟨ho2, hp2⟩ := Prod.mk.injEq .. ▸ (Except.ok.injEq .. ▸ heq2)
      subst ho2; subst hp2
      have hoff := cclassFull_offset heq
      exact ih k o (by omega) h
  | case13 ps off pbuf hlt hrep hbol heol hany hcls hcol hlt2 ha e herr =>
    intro k o hole h
    rw [compileLoop] at h
    simp only [dif_pos hlt, if_neg hrep, if_neg hbol, if_neg heol, if_neg hany, if_neg hcls, if_pos hcol, if_pos hlt2, if_pos ha, herr, Except.error.injEq] at h
    obtain ⟨he, hz⟩ := storeAt_error herr
    subst h
    obtain ⟨hk, hoo⟩ := Prod.mk.injEq .. ▸ he
    subst hk; subst hoo
    exact ⟨fun hne => absurd rfl hne, fun h0 => absurd h0 hz⟩
  | case14 ps off pbuf hlt hrep hbol heol hany hcls hcol hlt2 ha pbuf1 heq ih =>
    intro k o hole h
    rw [compileLoop] at h
    simp only [dif_pos hlt, if_neg hrep, if_neg hbol, if_neg heol, if_neg hany, if_neg hcls, if_pos hcol, if_pos hlt2, if_pos ha, heq] at h
    exact ih k o (by omega) h
  | case15 ps off pbuf hlt hrep hbol heol hany hcls hcol hlt2 hna hd e herr =>
    intro k o hole h
    rw [compileLoop] at h
    simp only [dif_pos hlt, if_neg hrep, if_neg hbol, if_neg heol, if_neg hany, if_neg hcls, if_pos hcol, if_pos hlt2, if_neg hna, if_pos hd, herr, Except.error.injEq] at h
    obtain ⟨he, hz⟩ := storeAt_error herr
    subst h
    obtain ⟨hk, hoo⟩ := Prod.mk.injEq .. ▸ he
    subst hk; subst hoo
    exact ⟨fun hne => absurd rfl hne, fun h0 => absurd h0 hz⟩
  | case16 ps off pbuf hlt hrep hbol heol hany hcls hcol hlt2 hna hd pbuf1 heq ih =>
    intro k o hole h
    rw [compileLoop] at h
    simp only [dif_pos hlt, if_neg hrep, if_neg hbol, if_neg heol, if_neg hany, if_neg hcls, if_pos hcol, if_pos hlt2, if_neg hna, if_pos hd, heq] at h
    exact ih k o (by omega) h
  | case17 ps off pbuf hlt hrep hbol heol hany hcls hcol hlt2 hna hnd hn e herr =>
    intro k o hole h
    rw [compileLoop] at h
    simp only [dif_pos hlt, if_neg hrep, if_neg hbol, if_neg heol, if_neg hany, if_neg hcls, if_pos hcol, if_pos hlt2, if_neg hna, if_neg hnd, if_pos hn, herr, Except.error.injEq] at h
    obtain ⟨he, hz⟩ := storeAt_error herr
    subst h
    obtain ⟨hk, hoo⟩ := Prod.mk.injEq .. ▸ he
    subst hk; subst hoo
    exact ⟨fun hne => absurd rfl hne, fun h0 => absurd h0 hz⟩
  | case18 ps off pbuf hlt hrep hbol heol hany hcls hcol hlt2 hna hnd hn pbuf1 heq ih =>
    intro k o hole h
    rw [compileLoop] at h
    simp only [dif_pos hlt, if_neg hrep, if_neg hbol, if_neg heol, if_neg hany, if_neg hcls, if_pos hcol, if_pos hlt2, if_neg hna, if_neg hnd, if_pos hn, heq] at h
    exact ih k o (by omega) h
  | case19 ps off pbuf hlt hrep hbol heol hany hcls hcol hlt2 hna hnd hnn hsp e herr =>
    intro k o hole h
    rw [compileLoop] at h
    simp only [dif_pos hlt, if_neg hrep, if_neg hbol, if_neg heol, if_neg hany, if_neg hcls, if_pos hcol, if_pos hlt2, if_neg hna, if_neg hnd, if_neg hnn, if_pos hsp, herr, Except.error.injEq] at h
    obtain ⟨he, hz⟩ := storeAt_error herr
    subst h
    obtain ⟨hk, hoo⟩ := Prod.mk.injEq .. ▸ he
    subst hk; subst hoo
    exact ⟨fun hne => absurd rfl hne, fun h0 => absurd h0 hz⟩
  | case20 ps off pbuf hlt hrep hbol heol hany hcls hcol hlt2 hna hnd hnn hsp pbuf1 heq ih =>
    intro k o hole h
    rw [compileLoop] at h
    simp only [dif_pos hlt, if_neg hrep, if_neg hbol, if_neg heol, if_neg hany, if_neg hcls, if_pos hcol, if_pos hlt2, if_neg hna, if_neg hnd, if_neg hnn, if_pos hsp, heq] at h
    exact ih k o (by omega) h
  | case21 ps off pbuf hlt hrep hbol heol hany hcls hcol hlt2 hna hnd hnn hnsp =>
    intro k o hole h
    rw [compileLoop] at h
    simp only [dif_pos hlt, if_neg hrep, if_neg hbol, if_neg heol, if_neg hany, if_neg hcls, if_pos hcol, if_pos hlt2, if_neg hna, if_neg hnd, if_neg hnn, if_neg hnsp,
      Except.error.injEq] at h
    obtain ⟨hk, hoo⟩ := Prod.mk.injEq .. ▸ h
    subst hk; subst hoo
    exact ⟨fun _ => by omega, fun _ => by simp⟩
  | case22 ps off pbuf hlt hrep hbol heol hany hcls hcol hlt2 =>
    intro k o hole h
    rw [compileLoop] at h
    simp only [dif_pos hlt, if_neg hrep, if_neg hbol, if_neg heol, if_neg hany, if_neg hcls, if_pos hcol, if_neg hlt2, Except.error.injEq] at h
    obtain ⟨hk, hoo⟩ := Prod.mk.injEq .. ▸ h
    subst hk; subst hoo
    exact ⟨fun _ => by omega, fun _ => by simp⟩
  | case23 ps off pbuf hlt hrep hbol heol hany hcls hcol hesc e herr =>
    intro k o hole h
    rw [compileLoop] at h
    simp only [dif_pos hlt, if_neg hrep, if_neg hbol, if_neg heol, if_neg hany, if_neg hcls, if_neg hcol, if_pos hesc, herr, Except.error.injEq] at h
    obtain ⟨he, hz⟩ := storeAt_error herr
    subst h
    obtain ⟨hk, hoo⟩ := Prod.mk.injEq .. ▸ he
    subst hk; subst hoo
    exact ⟨fun hne => absurd rfl hne, fun h0 => absurd h0 hz⟩
  | case24 ps off pbuf hlt hrep hbol heol hany hcls hcol hesc pbuf1 heq e herr =>
    intro k o hole h
    rw [compileLoop] at h
    simp only [dif_pos hlt, if_neg hrep, if_neg hbol, if_neg heol, if_neg hany, if_neg hcls, if_neg hcol, if_pos hesc, heq, herr, Except.error.injEq] at h
    obtain ⟨he, hz⟩ := storeAt_error herr
    subst h
    obtain ⟨hk, hoo⟩ := Prod.mk.injEq .. ▸ he
    subst hk; subst hoo
    exact ⟨fun hne => absurd rfl hne, fun h0 => absurd h0 hz⟩
  | case25 ps off pbuf hlt hrep hbol heol hany hcls hcol hesc pbuf1 heq pbuf2 heq2 ih =>
    intro k o hole h
    rw [compileLoop] at h
    simp only [dif_pos hlt, if_neg hrep, if_neg hbol, if_neg heol, if_neg hany, if_neg hcls, if_neg hcol, if_pos hesc, heq, heq2] at h
    exact ih k o (by omega) h
  | case26 ps off pbuf hlt hrep hbol heol hany hcls hcol hesc e herr =>
    intro k o hole h
    rw [compileLoop] at h
    simp only [dif_pos hlt, if_neg hrep, if_neg hbol, if_neg heol, if_neg hany, if_neg hcls, if_neg hcol, if_neg hesc, herr, Except.error.injEq] at h
    obtain ⟨he, hz⟩ := storeAt_error herr
    subst h
    obtain ⟨hk, hoo⟩ := Prod.mk.injEq .. ▸ he
    subst hk; subst hoo
    exact ⟨fun hne => absurd rfl hne, fun h0 => absurd h0 hz⟩
  | case27 ps off pbuf hlt hrep hbol heol hany hcls hcol hesc pbuf1 heq e herr =>
    intro k o hole h
    rw [compileLoop] at h
    simp only [dif_pos hlt, if_neg hrep, if_neg hbol, if_neg heol, if_neg hany, if_neg hcls, if_neg hcol, if_neg hesc, heq, herr, Except.error.injEq] at h
    obtain ⟨he, hz⟩ := storeAt_error herr
    subst h
    obtain ⟨hk, hoo⟩ := Prod.mk.injEq .. ▸ he
    subst hk; subst hoo
    exact ⟨fun hne => absurd rfl hne, fun h0 => absurd h0 hz⟩
  | case28 ps off pbuf hlt hrep hbol heol hany hcls hcol hesc pbuf1 heq pbuf2 heq2 ih =>
    intro k o hole h
    rw [compileLoop] at h
    simp only [dif_pos hlt, if_neg hrep, if_neg hbol, if_neg heol, if_neg hany, if_neg hcls, if_neg hcol, if_neg hesc, heq, heq2] at h
    exact ih k o (by omega) h
  | case29 ps off pbuf hge =>
    intro k o hole h
    rw [compileLoop] at h
    simp only [dif_neg hge] at h
    exact Except.noConfusion h

/-- Errors of `Pattern::compile`: a non-`ComplexPattern` error carries
an offset in `1..=src.length` (so `source[offset - 1]` is in bounds),
and compiling with `limit = 0` can never produce `ComplexPattern`. -/
theorem compile_err {src : List Nat} {pmax : Nat} {k : PatternErrorKind} {o : Nat}
    (h : compile src pmax = .error (k, o)) :
    (k ≠ .complexPattern → 1 ≤ o ∧ o ≤ src.length) ∧ (pmax = 0 → k ≠ .complexPattern) := by
  unfold compile at h
  cases h1 : compileLoop src pmax 0 0 [] with
  | error e =>
    simp only [h1] at h
    simp only [Except.error.injEq] at h
    subst h
    exact compileLoop_err src pmax 0 0 [] k o (by omega) h1
  | ok pbuf =>
    simp only [h1] at h
    cases h2 : storeAt pmax pbuf ENDPAT src.length with
    | error e =>
      simp only [h2] at h
      obtain ⟨he, hz⟩ := storeAt_error h2
      simp only [Except.error.injEq] at h
      subst h
      obtain ⟨hk, hoo⟩ := Prod.mk.injEq .. ▸ he
      subst hk; subst hoo
      exact ⟨fun hne => absurd rfl hne, fun h0 => absurd h0 hz⟩
    | ok pbuf1 =>
      simp only [h2] at h
      cases h3 : storeAt pmax pbuf1 0 src.length with
      | error e =>
        simp only [h3] at h
        obtain ⟨he, hz⟩ := storeAt_error h3
        simp only [Except.error.injEq] at h
        subst h
        obtain ⟨hk, hoo⟩ := Prod.mk.injEq .. ▸ he
        subst hk; subst hoo
        exact ⟨fun hne => absurd rfl hne, fun h0 => absurd h0 hz⟩
      | ok pbuf2 =>
        simp only [h3] at h
        exact Except.noConfusion h

/-! ### Capacity-limit simulation (for the `ComplexPattern` claim)

A compilation that succeeds with `limit = 0` producing `S` bytes
behaves, under a positive limit `L`, exactly like the unlimited run
when `S ≤ L` and fails with `ComplexPattern` when `L < S`. -/

theorem storeAt_ok_of_room (pmax : Nat) (pbuf : List Nat) (op off : Nat)
    (h : pmax = 0 ∨ pbuf.length < pmax) : storeAt pmax pbuf op off = .ok (pbuf ++ [op]) := by
  unfold storeAt store
  have : ¬(pmax ≤ pbuf.length ∧ pmax ≠ 0) := by omega
  rw [if_neg this]

theorem storeAt_err_of_full (pmax : Nat) (pbuf : List Nat) (op off : Nat)
    (h1 : pmax ≠ 0) (h2 : pmax ≤ pbuf.length) :
    storeAt pmax pbuf op off = .error (.complexPattern, off) := by
  unfold storeAt store
  rw [if_pos ⟨h2, h1⟩]

theorem copyShiftSet_length (pbuf : List Nat) (ps rep : Nat) (h : ps ≤ pbuf.length) :
    (copyShiftSet (pbuf ++ [ENDPAT, ENDPAT]) ps pbuf.length rep).length = pbuf.length + 2 := by
  unfold copyShiftSet
  simp only [List.length_set, List.length_append, List.length_take, List.length_drop,
    List.length_cons, List.length_nil]
  omega

theorem cclassLoop_sim (src : List Nat) (cs : Nat) :
    ∀ off pbuf off2 out, cclassLoop src 0 cs off pbuf = .ok (off2, out) →
      pbuf.length ≤ out.length ∧
      ∀ L, 0 < L →
        (out.length ≤ L → cclassLoop src L cs off pbuf = .ok (off2, out)) ∧
        (pbuf.length ≤ L → L < out.length →
          ∃ o, cclassLoop src L cs off pbuf = .error (.complexPattern, o)) := by
  intro off pbuf
  induction off, pbuf using cclassLoop.induct src 0 cs with
  | case1 off pbuf hlt hc =>
    intro off2 out h
    rw [cclassLoop] at h
    simp only [dif_pos hlt, if_pos hc, Except.ok.injEq, Prod.mk.injEq] at h
    obtain ⟨ho, hb⟩ := h
    subst ho; subst hb
    refine ⟨Nat.le_refl _, fun L hL => ⟨fun hle => ?_, fun hge hlt2 => by omega⟩⟩
    rw [cclassLoop]
    simp only [dif_pos hlt, if_pos hc]
  | case2 off pbuf hlt hc hesc h2 e herr =>
    intro off2 out h
    exact absurd (storeAt_error herr).2 (by simp)
  | case3 off pbuf hlt hc hesc h2 pbuf2 heq ih =>
    intro off2 out h
    rw [cclassLoop] at h
    simp only [dif_pos hlt, if_neg hc, if_pos hesc, dif_pos h2, heq] at h
    have hb2 : pbuf2 = pbuf ++ [toLower (src.getD (off + 1) 0)] := storeAt_ok heq
    have hlen2 : pbuf2.length = pbuf.length + 1 := by rw [hb2]; simp
    obtain ⟨hmono, hsim⟩ := ih off2 out h
    refine ⟨by omega, fun L hL => ⟨fun hle => ?_, fun hge hlt2 => ?_⟩⟩
    · rw [cclassLoop]
      simp only [dif_pos hlt, if_neg hc, if_pos hesc, dif_pos h2]
      simp only [storeAt_ok_of_room L pbuf _ _ (by omega), ← hb2]
      exact ((hsim L hL).1 hle)
    · rw [cclassLoop]
      simp only [dif_pos hlt, if_neg hc, if_pos hesc, dif_pos h2]
      by_cases hroom : pbuf.length < L
      · simp only [storeAt_ok_of_room L pbuf _ _ (Or.inr hroom), ← hb2]
        exact (hsim L hL).2 (by omega) hlt2
      · simp only [storeAt_err_of_full L pbuf _ _ (by omega) (by omega)]
        exact ⟨off + 2, rfl⟩
  | case4 off pbuf hlt hc hesc h2 =>
    intro off2 out h
    rw [cclassLoop] at h
    simp only [dif_pos hlt, if_neg hc, if_pos hesc, dif_neg h2] at h
    exact Except.noConfusion h
  | case5 off pbuf hlt hc hesc h3 e herr =>
    intro off2 out h
    exact absurd (storeAt_error herr).2 (by simp)
  | case6 off pbuf hlt hc hesc h3 pbuf2 heq e herr =>
    intro off2 out h
    exact absurd (storeAt_error herr).2 (by simp)
  | case7 off pbuf hlt hc hesc h3 pbuf2 heq pbuf3 heq2 e herr =>
    intro off2 out h
    exact absurd (storeAt_error herr).2 (by simp)
  | case8 off pbuf hlt hc hesc h3 pbuf2 heq pbuf3 heq2 pbuf4 heq3 ih =>
    intro off2 out h
    rw [cclassLoop] at h
    simp only [dif_pos hlt, if_neg hc, if_neg hesc, dif_pos h3, heq, heq2, heq3] at h
    have hb2 : pbuf2 = pbuf.dropLast ++ [RANGE] := storeAt_ok heq
    have hb3 : pbuf3 = pbuf2 ++ [pbuf.getLastD 0] := storeAt_ok heq2
    have hb4 : pbuf4 = pbuf3 ++ [toLower (src.getD (off + 1) 0)] := storeAt_ok heq3
    have hne : pbuf.length ≠ 0 := by omega
    have hdl : pbuf.dropLast.length = pbuf.length - 1 := by simp
    have hlen2 : pbuf2.length = pbuf.length := by rw [hb2]; simp; omega
    have hlen3 : pbuf3.length = pbuf.length + 1 := by rw [hb3]; simp; omega
    have hlen4 : pbuf4.length = pbuf.length + 2 := by rw [hb4]; simp; omega
    obtain ⟨hmono, hsim⟩ := ih off2 out h
    refine ⟨by omega, fun L hL => ⟨fun hle => ?_, fun hge hlt2 => ?_⟩⟩
    · rw [cclassLoop]
      simp only [dif_pos hlt, if_neg hc, if_neg hesc, dif_pos h3]
      simp only [storeAt_ok_of_room L pbuf.dropLast _ _ (by omega), ← hb2]
      simp only [storeAt_ok_of_room L pbuf2 _ _ (by omega), ← hb3]
      simp only [storeAt_ok_of_room L pbuf3 _ _ (by omega), ← hb4]
      exact (hsim L hL).1 hle
    · rw [cclassLoop]
      simp only [dif_pos hlt, if_neg hc, if_neg hesc, dif_pos h3]
      simp only [storeAt_ok_of_room L pbuf.dropLast _ _ (by omega), ← hb2]
      by_cases hr2 : pbuf2.length < L
      · simp only [storeAt_ok_of_room L pbuf2 _ _ (Or.inr hr2), ← hb3]
        by_cases hr3 : pbuf3.length < L
        · simp only [storeAt_ok_of_room L pbuf3 _ _ (Or.inr hr3), ← hb4]
          exact (hsim L hL).2 (by omega) hlt2
        · simp only [storeAt_err_of_full L pbuf3 _ _ (by omega) (by omega)]
          exact ⟨off + 2, rfl⟩
      · simp only [storeAt_err_of_full L pbuf2 _ _ (by omega) (by omega)]
        exact ⟨off + 1, rfl⟩
  | case9 off pbuf hlt hc hesc h3 e herr =>
    intro off2 out h
    exact absurd (storeAt_error herr).2 (by simp)
  | case10 off pbuf hlt hc hesc h3 pbuf2 heq ih =>
    intro off2 out h
    rw [cclassLoop] at h
    simp only [dif_pos hlt, if_neg hc, if_neg hesc, dif_neg h3, heq] at h
    have hb2 : pbuf2 = pbuf ++ [toLower (src.getD off 0)] := storeAt_ok heq
    have hlen2 : pbuf2.length = pbuf.length + 1 := by rw [hb2]; simp
    obtain ⟨hmono, hsim⟩ := ih off2 out h
    refine ⟨by omega, fun L hL => ⟨fun hle => ?_, fun hge hlt2 => ?_⟩⟩
    · rw [cclassLoop]
      simp only [dif_pos hlt, if_neg hc, if_neg hesc, dif_neg h3]
      simp only [storeAt_ok_of_room L pbuf _ _ (by omega), ← hb2]
      exact (hsim L hL).1 hle
    · rw [cclassLoop]
      simp only [dif_pos hlt, if_neg hc, if_neg hesc, dif_neg h3]
      by_cases hroom : pbuf.length < L
      · simp only [storeAt_ok_of_room L pbuf _ _ (Or.inr hroom), ← hb2]
        exact (hsim L hL).2 (by omega) hlt2
      · simp only [storeAt_err_of_full L pbuf _ _ (by omega) (by omega)]
        exact ⟨off + 1, rfl⟩
  | case11 off pbuf hge =>
    intro off2 out h
    rw [cclassLoop] at h
    simp only [dif_neg hge] at h
    exact Except.noConfusion h


theorem cclassTail_sim {src : List Nat} {cls off : Nat} {pbuf : List Nat}
    {off2 : Nat} {out : List Nat} (h : cclassTail src 0 cls off pbuf = .ok (off2, out)) :
    pbuf.length ≤ out.length ∧
    ∀ L, 0 < L →
      (out.length ≤ L → cclassTail src L cls off pbuf = .ok (off2, out)) ∧
      (pbuf.length ≤ L → L < out.length →
        ∃ o, cclassTail src L cls off pbuf = .error (.complexPattern, o)) := by
  unfold cclassTail at h
  rw [storeAt_zero] at h
  simp only [] at h
  rw [storeAt_zero] at h
  simp only [] at h
  cases h3 : cclassLoop src 0 (pbuf ++ [cls]).length off (pbuf ++ [cls] ++ [0]) with
  | error e => rw [h3] at h; exact Except.noConfusion h
  | ok p =>
    obtain ⟨off3, pbuf3⟩ := p
    rw [h3] at h
    simp only [] at h
    obtain ⟨hmono, hsim⟩ := cclassLoop_sim src (pbuf ++ [cls]).length off
      (pbuf ++ [cls] ++ [0]) off3 pbuf3 h3
    have hl01 : (pbuf ++ [cls]).length = pbuf.length + 1 := by simp
    have hl02 : (pbuf ++ [cls] ++ [0]).length = pbuf.length + 2 := by simp
    by_cases hlarge : 256 ≤ pbuf3.length - (pbuf ++ [cls]).length
    · rw [if_pos hlarge] at h; exact Except.noConfusion h
    · rw [if_neg hlarge] at h
      by_cases hz : pbuf3.length - (pbuf ++ [cls]).length = 0
      · rw [if_pos hz] at h; exact Except.noConfusion h
      · rw [if_neg hz] at h
        simp only [Except.ok.injEq, Prod.mk.injEq] at h
        obtain ⟨ho, hb⟩ := h
        subst ho; subst hb
        have houtlen : (pbuf3.set (pbuf ++ [cls]).length
            (pbuf3.length - (pbuf ++ [cls]).length)).length = pbuf3.length := by simp
        refine ⟨by omega, fun L hL => ⟨fun hle => ?_, fun hge hlt2 => ?_⟩⟩
        · unfold cclassTail
          simp only [storeAt_ok_of_room L pbuf _ _ (by omega)]
          simp only [storeAt_ok_of_room L (pbuf ++ [cls]) _ _ (by omega)]
          rw [(hsim L hL).1 (by omega)]
          simp only [if_neg hlarge, if_neg hz]
        · unfold cclassTail
          by_cases hr1 : pbuf.length < L
          · simp only [storeAt_ok_of_room L pbuf _ _ (Or.inr hr1)]
            by_cases hr2 : pbuf.length + 1 < L
            · simp only [storeAt_ok_of_room L (pbuf ++ [cls]) _ _ (by omega)]
              obtain ⟨o, ho⟩ := (hsim L hL).2 (by omega) (by omega)
              rw [ho]
              exact ⟨o, rfl⟩
            · simp only [storeAt_err_of_full L (pbuf ++ [cls]) _ _ (by omega) (by omega)]
              exact ⟨off, rfl⟩
          · simp only [storeAt_err_of_full L pbuf _ _ (by omega) (by omega)]
            exact ⟨off, rfl⟩

theorem cclassFull_sim {src : List Nat} {off : Nat} {pbuf : List Nat}
    {off2 : Nat} {out : List Nat} (h : cclassFull src 0 off pbuf = .ok (off2, out)) :
    pbuf.length ≤ out.length ∧
    ∀ L, 0 < L →
      (out.length ≤ L → cclassFull src L off pbuf = .ok (off2, out)) ∧
      (pbuf.length ≤ L → L < out.length →
        ∃ o, cclassFull src L off pbuf = .error (.complexPattern, o)) := by
  unfold cclassFull at h ⊢
  by_cases hc : off < src.length ∧ src.getD off 0 = 94
  · rw [if_pos hc] at h
    obtain ⟨hmono, hsim⟩ := cclassTail_sim h
    exact ⟨hmono, fun L hL => by rw [if_pos hc]; exact hsim L hL⟩
  · rw [if_neg hc] at h
    obtain ⟨hmono, hsim⟩ := cclassTail_sim h
    exact ⟨hmono, fun L hL => by rw [if_neg hc]; exact hsim L hL⟩


theorem compileLoop_sim (src : List Nat) :
    ∀ ps off pbuf, ∀ B : List Nat, ps ≤ pbuf.length →
      compileLoop src 0 ps off pbuf = .ok B →
      pbuf.length ≤ B.length ∧
      ∀ L, 0 < L →
        (B.length ≤ L → compileLoop src L ps off pbuf = .ok B) ∧
        (pbuf.length ≤ L → L < B.length →
          ∃ o, compileLoop src L ps off pbuf = .error (.complexPattern, o)) := by
  intro ps off pbuf
  induction ps, off, pbuf using compileLoop.induct src 0 with
  | case1 ps off pbuf hlt hrep hbad =>
    intro B hps h
    rw [compileLoop] at h
    simp only [dif_pos hlt, if_pos hrep, if_pos hbad] at h
    exact Except.noConfusion h
  | case2 ps off pbuf hlt hrep hbad e herr =>
    intro B hps h
    exact absurd (storeAt_error herr).2 (by simp)
  | case3 ps off pbuf hlt hrep hbad pbuf1 heq e herr =>
    intro B hps h
    exact absurd (storeAt_error herr).2 (by simp)
  | case4 ps off pbuf hlt hrep hbad pbuf1 heq pbuf2 heq2 ih =>
    intro B hps h
    rw [compileLoop] at h
    simp only [dif_pos hlt, if_pos hrep, if_neg hbad, heq, heq2] at h
    have hb1 := storeAt_ok heq
    have hb2 := storeAt_ok heq2
    have hb2f : pbuf2 = pbuf ++ [ENDPAT, ENDPAT] := by
      rw [hb2, hb1, List.append_assoc]; rfl
    have hlen1 : pbuf1.length = pbuf.length + 1 := by rw [hb1]; simp
    have hlenN : (copyShiftSet pbuf2 ps pbuf.length (repOp (src.getD off 0))).length
        = pbuf.length + 2 := by
      rw [hb2f]; exact copyShiftSet_length pbuf ps _ hps
    obtain ⟨hmono, hsim⟩ := ih B (by omega) h
    refine ⟨by omega, fun L hL => ⟨fun hle => ?_, fun hge hLB => ?_⟩⟩
    · rw [compileLoop]
      simp only [dif_pos hlt, if_pos hrep, if_neg hbad]
      simp only [storeAt_ok_of_room L pbuf _ _ (by omega), ← hb1]
      simp only [storeAt_ok_of_room L pbuf1 _ _ (by omega), ← hb2]
      exact (hsim L hL).1 hle
    · rw [compileLoop]
      simp only [dif_pos hlt, if_pos hrep, if_neg hbad]
      by_cases hroom : pbuf.length < L
      · simp only [storeAt_ok_of_room L pbuf _ _ (Or.inr hroom), ← hb1]
        by_cases hroom2 : pbuf1.length < L
        · simp only [storeAt_ok_of_room L pbuf1 _ _ (Or.inr hroom2), ← hb2]
          exact (hsim L hL).2 (by omega) hLB
        · simp only [storeAt_err_of_full L pbuf1 _ _ (by omega) (by omega)]
          exact ⟨off + 1, rfl⟩
      · simp only [storeAt_err_of_full L pbuf _ _ (by omega) (by omega)]
        exact ⟨off + 1, rfl⟩
  | case5 ps off pbuf hlt hrep hbol e herr =>
    intro B hps h
    exact absurd (storeAt_error herr).2 (by simp)
  | case6 ps off pbuf hlt hrep hbol pbuf1 heq ih =>
    intro B hps h
    rw [compileLoop] at h
    simp only [dif_pos hlt, if_neg hrep, if_pos hbol, heq] at h
    have hb1 := storeAt_ok heq
    have hlen1 : pbuf1.length = pbuf.length + 1 := by rw [hb1]; simp
    obtain ⟨hmono, hsim⟩ := ih B (by omega) h
    refine ⟨by omega, fun L hL => ⟨fun hle => ?_, fun hge hLB => ?_⟩⟩
    · rw [compileLoop]
      simp only [dif_pos hlt, if_neg hrep, if_pos hbol]
      simp only [storeAt_ok_of_room L pbuf _ _ (by omega), ← hb1]
      exact (hsim L hL).1 hle
    · rw [compileLoop]
      simp only [dif_pos hlt, if_neg hrep, if_pos hbol]
      by_cases hroom : pbuf.length < L
      · simp only [storeAt_ok_of_room L pbuf _ _ (Or.inr hroom), ← hb1]
        exact (hsim L hL).2 (by omega) hLB
      · simp only [storeAt_err_of_full L pbuf _ _ (by omega) (by omega)]
        exact ⟨off + 1, rfl⟩
  | case7 ps off pbuf hlt hrep hbol heol e herr =>
    intro B hps h
    exact absurd (storeAt_error herr).2 (by simp)
  | case8 ps off pbuf hlt hrep hbol heol pbuf1 heq ih =>
    intro B hps h
    rw [compileLoop] at h
    simp only [dif_pos hlt, if_neg hrep, if_neg hbol, if_pos heol, heq] at h
    have hb1 := storeAt_ok heq
    have hlen1 : pbuf1.length = pbuf.length + 1 := by rw [hb1]; simp
    obtain ⟨hmono, hsim⟩ := ih B (by omega) h
    refine ⟨by omega, fun L hL => ⟨fun hle => ?_, fun hge hLB => ?_⟩⟩
    · rw [compileLoop]
      simp only [dif_pos hlt, if_neg hrep, if_neg hbol, if_pos heol]
      simp only [storeAt_ok_of_room L pbuf _ _ (by omega), ← hb1]
      exact (hsim L hL).1 hle
    · rw [compileLoop]
      simp only [dif_pos hlt, if_neg hrep, if_neg hbol, if_pos heol]
      by_cases hroom : pbuf.length < L
      · simp only [storeAt_ok_of_room L pbuf _ _ (Or.inr hroom), ← hb1]
        exact (hsim L hL).2 (by omega) hLB
      · simp only [storeAt_err_of_full L pbuf _ _ (by omega) (by omega)]
        exact ⟨off + 1, rfl⟩
  | case9 ps off pbuf hlt hrep hbol heol hany e herr =>
    intro B hps h
    exact absurd (storeAt_error herr).2 (by simp)
  | case10 ps off pbuf hlt hrep hbol heol hany pbuf1 heq ih =>
    intro B hps h
    rw [compileLoop] at h
    simp only [dif_pos hlt, if_neg hrep, if_neg hbol, if_neg heol, if_pos hany, heq] at h
    have hb1 := storeAt_ok heq
    have hlen1 : pbuf1.length = pbuf.length + 1 := by rw [hb1]; simp
    obtain ⟨hmono, hsim⟩ := ih B (by omega) h
    refine ⟨by omega, fun L hL => ⟨fun hle => ?_, fun hge hLB => ?_⟩⟩
    · rw [compileLoop]
      simp only [dif_pos hlt, if_neg hrep, if_neg hbol, if_neg heol, if_pos hany]
      simp only [storeAt_ok_of_room L pbuf _ _ (by omega), ← hb1]
      exact (hsim L hL).1 hle
    · rw [compileLoop]
      simp only [dif_pos hlt, if_neg hrep, if_neg hbol, if_neg heol, if_pos hany]
      by_cases hroom : pbuf.length < L
      · simp only [storeAt_ok_of_room L pbuf _ _ (Or.inr hroom), ← hb1]
        exact (hsim L hL).2 (by omega) hLB
      · simp only [storeAt_err_of_full L pbuf _ _ (by omega) (by omega)]
        exact ⟨off + 1, rfl⟩
  | case11 ps off pbuf hlt hrep hbol heol hany hcls e herr =>
    intro B hps h
    rw [compileLoop] at h
    simp only [dif_pos hlt, if_neg hrep, if_neg hbol, if_neg heol, if_neg hany, if_pos hcls] at h
    split at h
    · exact Except.noConfusion h
    · rename_i off2 pbuf1 heq2
      rw [herr] at heq2
      exact Except.noConfusion heq2
  | case12 ps off pbuf hlt hrep hbol heol hany hcls off2 pbuf1 heq ih =>
    intro B hps h
    rw [compileLoop] at h
    simp only [dif_pos hlt, if_neg hrep, if_neg hbol, if_neg heol, if_neg hany, if_pos hcls] at h
    split at h
    · rename_i e2 heq2
      rw [heq] at heq2
      exact Except.noConfusion heq2
    · rename_i off2b pbuf1b heq2
      rw [heq] at heq2
      obtain ⟨ho2, hp2⟩ := Prod.mk.injEq .. ▸ (Except.ok.injEq .. ▸ heq2)
      subst ho2; subst hp2
      obtain ⟨hcm, hcs⟩ := cclassFull_sim heq
      obtain ⟨hmono, hsim⟩ := ih B (by omega) h
      refine ⟨by omega, fun L hL => ⟨fun hle => ?_, fun hge hLB => ?_⟩⟩
      · rw [compileLoop]
        simp only [dif_pos hlt, if_neg hrep, if_neg hbol, if_neg heol, if_neg hany, if_pos hcls]
        split
        · rename_i e3 heq3
          rw [(hcs L hL).1 (by omega)] at heq3
          exact Except.noConfusion heq3
        · rename_i off2c pbuf1c heq3
          rw [(hcs L hL).1 (by omega)] at heq3
          obtain ⟨ho3, hp3⟩ := Prod.mk.injEq .. ▸ (Except.ok.injEq .. ▸ heq3)
          subst ho3; subst hp3
          exact (hsim L hL).1 hle
      · rw [compileLoop]
        simp only [dif_pos hlt, if_neg hrep, if_neg hbol, if_neg heol, if_neg hany, if_pos hcls]
        by_cases hcr : pbuf1.length ≤ L
        · obtain ⟨o2, ho2⟩ := (hsim L hL).2 (by omega) hLB
          refine ⟨o2, ?_⟩
          split
          · rename_i e3 heq3
            rw [(hcs L hL).1 hcr] at heq3
            exact Except.noConfusion heq3
          · rename_i off2c pbuf1c heq3
            rw [(hcs L hL).1 hcr] at heq3
            obtain ⟨ho3, hp3⟩ := Prod.mk.injEq .. ▸ (Except.ok.injEq .. ▸ heq3)
            subst ho3; subst hp3
            exact ho2
        · obtain ⟨o2, ho2⟩ := (hcs L hL).2 (by omega) (by omega)
          refine ⟨o2, ?_⟩
          split
          · rename_i e3 heq3
            rw [ho2] at heq3
            obtain he3 := Except.error.injEq .. ▸ heq3
            rw [← he3]
          · rename_i off2c pbuf1c heq3
            rw [ho2] at heq3
            exact Except.noConfusion heq3
  | case13 ps off pbuf hlt hrep hbol heol hany hcls hcol hlt2 ha e herr =>
    intro B hps h
    exact absurd (storeAt_error herr).2 (by simp)
  | case14 ps off pbuf hlt hrep hbol heol hany hcls hcol hlt2 ha pbuf1 heq ih =>
    intro B hps h
    rw [compileLoop] at h
    simp only [dif_pos hlt, if_neg hrep, if_neg hbol, if_neg heol, if_neg hany, if_neg hcls, if_pos hcol, if_pos hlt2, if_pos ha, heq] at h
    have hb1 := storeAt_ok heq
    have hlen1 : pbuf1.length = pbuf.length + 1 := by rw [hb1]; simp
    obtain ⟨hmono, hsim⟩ := ih B (by omega) h
    refine ⟨by omega, fun L hL => ⟨fun hle => ?_, fun hge hLB => ?_⟩⟩
    · rw [compileLoop]
      simp only [dif_pos hlt, if_neg hrep, if_neg hbol, if_neg heol, if_neg hany, if_neg hcls, if_pos hcol, if_pos hlt2, if_pos ha]
      simp only [storeAt_ok_of_room L pbuf _ _ (by omega), ← hb1]
      exact (hsim L hL).1 hle
    · rw [compileLoop]
      simp only [dif_pos hlt, if_neg hrep, if_neg hbol, if_neg heol, if_neg hany, if_neg hcls, if_pos hcol, if_pos hlt2, if_pos ha]
      by_cases hroom : pbuf.length < L
      · simp only [storeAt_ok_of_room L pbuf _ _ (Or.inr hroom), ← hb1]
        exact (hsim L hL).2 (by omega) hLB
      · simp only [storeAt_err_of_full L pbuf _ _ (by omega) (by omega)]
        exact ⟨off + 2, rfl⟩
  | case15 ps off pbuf hlt hrep hbol heol hany hcls hcol hlt2 hna hd e herr =>
    intro B hps h
    exact absurd (storeAt_error herr).2 (by simp)
  | case16 ps off pbuf hlt hrep hbol heol hany hcls hcol hlt2 hna hd pbuf1 heq ih =>
    intro B hps h
    rw [compileLoop] at h
    simp only [dif_pos hlt, if_neg hrep, if_neg hbol, if_neg heol, if_neg hany, if_neg hcls, if_pos hcol, if_pos hlt2, if_neg hna, if_pos hd, heq] at h
    have hb1 := storeAt_ok heq
    have hlen1 : pbuf1.length = pbuf.length + 1 := by rw [hb1]; simp
    obtain ⟨hmono, hsim⟩ := ih B (by omega) h
    refine ⟨by omega, fun L hL => ⟨fun hle => ?_, fun hge hLB => ?_⟩⟩
    · rw [compileLoop]
      simp only [dif_pos hlt, if_neg hrep, if_neg hbol, if_neg heol, if_neg hany, if_neg hcls, if_pos hcol, if_pos hlt2, if_neg hna, if_pos hd]
      simp only [storeAt_ok_of_room L pbuf _ _ (by omega), ← hb1]
      exact (hsim L hL).1 hle
    · rw [compileLoop]
      simp only [dif_pos hlt, if_neg hrep, if_neg hbol, if_neg heol, if_neg hany, if_neg hcls, if_pos hcol, if_pos hlt2, if_neg hna, if_pos hd]
      by_cases hroom : pbuf.length < L
      · simp only [storeAt_ok_of_room L pbuf _ _ (Or.inr hroom), ← hb1]
        exact (hsim L hL).2 (by omega) hLB
      · simp only [storeAt_err_of_full L pbuf _ _ (by omega) (by omega)]
        exact ⟨off + 2, rfl⟩
  | case17 ps off pbuf hlt hrep hbol heol hany hcls hcol hlt2 hna hnd hn e herr =>
    intro B hps h
    exact absurd (storeAt_error herr).2 (by simp)
  | case18 ps off pbuf hlt hrep hbol heol hany hcls hcol hlt2 hna hnd hn pbuf1 heq ih =>
    intro B hps h
    rw [compileLoop] at h
    simp only [dif_pos hlt, if_neg hrep, if_neg hbol, if_neg heol, if_neg hany, if_neg hcls, if_pos hcol, if_pos hlt2, if_neg hna, if_neg hnd, if_pos hn, heq] at h
    have hb1 := storeAt_ok heq
    have hlen1 : pbuf1.length = pbuf.length + 1 := by rw [hb1]; simp
    obtain ⟨hmono, hsim⟩ := ih B (by omega) h
    refine ⟨by omega, fun L hL => ⟨fun hle => ?_, fun hge hLB => ?_⟩⟩
    · rw [compileLoop]
      simp only [dif_pos hlt, if_neg hrep, if_neg hbol, if_neg heol, if_neg hany, if_neg hcls, if_pos hcol, if_pos hlt2, if_neg hna, if_neg hnd, if_pos hn]
      simp only [storeAt_ok_of_room L pbuf _ _ (by omega), ← hb1]
      exact (hsim L hL).1 hle
    · rw [compileLoop]
      simp only [dif_pos hlt, if_neg hrep, if_neg hbol, if_neg heol, if_neg hany, if_neg hcls, if_pos hcol, if_pos hlt2, if_neg hna, if_neg hnd, if_pos hn]
      by_cases hroom : pbuf.length < L
      · simp only [storeAt_ok_of_room L pbuf _ _ (Or.inr hroom), ← hb1]
        exact (hsim L hL).2 (by omega) hLB
      · simp only [storeAt_err_of_full L pbuf _ _ (by omega) (by omega)]
        exact ⟨off + 2, rfl⟩
  | case19 ps off pbuf hlt hrep hbol heol hany hcls hcol hlt2 hna hnd hnn hsp e herr =>
    intro B hps h
    exact absurd (storeAt_error herr).2 (by simp)
  | case20 ps off pbuf hlt hrep hbol heol hany hcls hcol hlt2 hna hnd hnn hsp pbuf1 heq ih =>
    intro B hps h
    rw [compileLoop] at h
    simp only [dif_pos hlt, if_neg hrep, if_neg hbol, if_neg heol, if_neg hany, if_neg hcls, if_pos hcol, if_pos hlt2, if_neg hna, if_neg hnd, if_neg hnn, if_pos hsp, heq] at h
    have hb1 := storeAt_ok heq
    have hlen1 : pbuf1.length = pbuf.length + 1 := by rw [hb1]; simp
    obtain ⟨hmono, hsim⟩ := ih B (by omega) h
    refine ⟨by omega, fun L hL => ⟨fun hle => ?_, fun hge hLB => ?_⟩⟩
    · rw [compileLoop]
      simp only [dif_pos hlt, if_neg hrep, if_neg hbol, if_neg heol, if_neg hany, if_neg hcls, if_pos hcol, if_pos hlt2, if_neg hna, if_neg hnd, if_neg hnn, if_pos hsp]
      simp only [storeAt_ok_of_room L pbuf _ _ (by omega), ← hb1]
      exact (hsim L hL).1 hle
    · rw [compileLoop]
      simp only [dif_pos hlt, if_neg hrep, if_neg hbol, if_neg heol, if_neg hany, if_neg hcls, if_pos hcol, if_pos hlt2, if_neg hna, if_neg hnd, if_neg hnn, if_pos hsp]
      by_cases hroom : pbuf.length < L
      · simp only [storeAt_ok_of_room L pbuf _ _ (Or.inr hroom), ← hb1]
        exact (hsim L hL).2 (by omega) hLB
      · simp only [storeAt_err_of_full L pbuf _ _ (by omega) (by omega)]
        exact ⟨off + 2, rfl⟩
  | case21 ps off pbuf hlt hrep hbol heol hany hcls hcol hlt2 hna hnd hnn hnsp =>
    intro B hps h
    rw [compileLoop] at h
    simp only [dif_pos hlt, if_neg hrep, if_neg hbol, if_neg heol, if_neg hany, if_neg hcls, if_pos hcol, if_pos hlt2, if_neg hna, if_neg hnd, if_neg hnn, if_neg hnsp] at h
    exact Except.noConfusion h
  | case22 ps off pbuf hlt hrep hbol heol hany hcls hcol hlt2 =>
    intro B hps h
    rw [compileLoop] at h
    simp only [dif_pos hlt, if_neg hrep, if_neg hbol, if_neg heol, if_neg hany, if_neg hcls, if_pos hcol, if_neg hlt2] at h
    exact Except.noConfusion h
  | case23 ps off pbuf hlt hrep hbol heol hany hcls hcol hesc e herr =>
    intro B hps h
    exact absurd (storeAt_error herr).2 (by simp)
  | case24 ps off pbuf hlt hrep hbol heol hany hcls hcol hesc pbuf1 heq e herr =>
    intro B hps h
    exact absurd (storeAt_error herr).2 (by simp)
  | case25 ps off pbuf hlt hrep hbol heol hany hcls hcol hesc pbuf1 heq pbuf2 heq2 ih =>
    intro B hps h
    rw [compileLoop] at h
    simp only [dif_pos hlt, if_neg hrep, if_neg hbol, if_neg heol, if_neg hany, if_neg hcls, if_neg hcol, if_pos hesc, heq, heq2] at h
    have hb1 := storeAt_ok heq
    have hb2 := storeAt_ok heq2
    have hlen1 : pbuf1.length = pbuf.length + 1 := by rw [hb1]; simp
    have hlen2 : pbuf2.length = pbuf.length + 2 := by rw [hb2]; simp; omega
    obtain ⟨hmono, hsim⟩ := ih B (by omega) h
    refine ⟨by omega, fun L hL => ⟨fun hle => ?_, fun hge hLB => ?_⟩⟩
    · rw [compileLoop]
      simp only [dif_pos hlt, if_neg hrep, if_neg hbol, if_neg heol, if_neg hany, if_neg hcls, if_neg hcol, if_pos hesc]
      simp only [storeAt_ok_of_room L pbuf _ _ (by omega), ← hb1]
      simp only [storeAt_ok_of_room L pbuf1 _ _ (by omega), ← hb2]
      exact (hsim L hL).1 hle
    · rw [compileLoop]
      simp only [dif_pos hlt, if_neg hrep, if_neg hbol, if_neg heol, if_neg hany, if_neg hcls, if_neg hcol, if_pos hesc]
      by_cases hroom : pbuf.length < L
      · simp only [storeAt_ok_of_room L pbuf _ _ (Or.inr hroom), ← hb1]
        by_cases hroom2 : pbuf1.length < L
        · simp only [storeAt_ok_of_room L pbuf1 _ _ (Or.inr hroom2), ← hb2]
          exact (hsim L hL).2 (by omega) hLB
        · simp only [storeAt_err_of_full L pbuf1 _ _ (by omega) (by omega)]
          exact ⟨off + 2, rfl⟩
      · simp only [storeAt_err_of_full L pbuf _ _ (by omega) (by omega)]
        exact ⟨off + 2, rfl⟩
  | case26 ps off pbuf hlt hrep hbol heol hany hcls hcol hesc e herr =>
    intro B hps h
    exact absurd (storeAt_error herr).2 (by simp)
  | case27 ps off pbuf hlt hrep hbol heol hany hcls hcol hesc pbuf1 heq e herr =>
    intro B hps h
    exact absurd (storeAt_error herr).2 (by simp)
  | case28 ps off pbuf hlt hrep hbol heol hany hcls hcol hesc pbuf1 heq pbuf2 heq2 ih =>
    intro B hps h
    rw [compileLoop] at h
    simp only [dif_pos hlt, if_neg hrep, if_neg hbol, if_neg heol, if_neg hany, if_neg hcls, if_neg hcol, if_neg hesc, heq, heq2] at h
    have hb1 := storeAt_ok heq
    have hb2 := storeAt_ok heq2
    have hlen1 : pbuf1.length = pbuf.length + 1 := by rw [hb1]; simp
    have hlen2 : pbuf2.length = pbuf.length + 2 := by rw [hb2]; simp; omega
    obtain ⟨hmono, hsim⟩ := ih B (by omega) h
    refine ⟨by omega, fun L hL => ⟨fun hle => ?_, fun hge hLB => ?_⟩⟩
    · rw [compileLoop]
      simp only [dif_pos hlt, if_neg hrep, if_neg hbol, if_neg heol, if_neg hany, if_neg hcls, if_neg hcol, if_neg hesc]
      simp only [storeAt_ok_of_room L pbuf _ _ (by omega), ← hb1]
      simp only [storeAt_ok_of_room L pbuf1 _ _ (by omega), ← hb2]
      exact (hsim L hL).1 hle
    · rw [compileLoop]
      simp only [dif_pos hlt, if_neg hrep, if_neg hbol, if_neg heol, if_neg hany, if_neg hcls, if_neg hcol, if_neg hesc]
      by_cases hroom : pbuf.length < L
      · simp only [storeAt_ok_of_room L pbuf _ _ (Or.inr hroom), ← hb1]
        by_cases hroom2 : pbuf1.length < L
        · simp only [storeAt_ok_of_room L pbuf1 _ _ (Or.inr hroom2), ← hb2]
          exact (hsim L hL).2 (by omega) hLB
        · simp only [storeAt_err_of_full L pbuf1 _ _ (by omega) (by omega)]
          exact ⟨off + 1, rfl⟩
      · simp only [storeAt_err_of_full L pbuf _ _ (by omega) (by omega)]
        exact ⟨off + 1, rfl⟩
  | case29 ps off pbuf hge =>
    intro B hps h
    rw [compileLoop] at h
    simp only [dif_neg hge, Except.ok.injEq] at h
    subst h
    refine ⟨Nat.le_refl _, fun L hL => ⟨fun hle => ?_, fun hge2 hLB => by omega⟩⟩
    rw [compileLoop]
    simp only [dif_neg hge]

/-- The capacity-limit behaviour of `Pattern::compile`: if the
unlimited compilation of `src` produces `B` (of size `B.length`), then
any limit at least `B.length` reproduces exactly `B`, and any positive
limit below `B.length` fails with `ComplexPattern`. -/
theorem compile_sim {src B : List Nat} (h : compile src 0 = .ok B) :
    (∀ L, B.length ≤ L → compile src L = .ok B) ∧
    (∀ L, 0 < L → L < B.length → ∃ o, compile src L = .error (.complexPattern, o)) := by
  unfold compile at h
  cases h1 : compileLoop src 0 0 0 [] with
  | error e => simp only [h1] at h; exact Except.noConfusion h
  | ok pbuf =>
    simp only [h1, storeAt_zero] at h
    simp only [Except.ok.injEq] at h
    subst h
    obtain ⟨hmono, hsim⟩ := compileLoop_sim src 0 0 [] pbuf (by simp) h1
    have hBlen : (pbuf ++ [ENDPAT] ++ [0]).length = pbuf.length + 2 := by simp
    have hl1 : (pbuf ++ [ENDPAT]).length = pbuf.length + 1 := by simp
    constructor
    · intro L hle
      rw [hBlen] at hle
      have hL : 0 < L := by omega
      unfold compile
      simp only [(hsim L hL).1 (by omega)]
      simp only [storeAt_ok_of_room L pbuf _ _ (by omega)]
      simp only [storeAt_ok_of_room L (pbuf ++ [ENDPAT]) _ _ (by omega)]
    · intro L hL hlt
      rw [hBlen] at hlt
      unfold compile
      by_cases hc1 : L < pbuf.length
      · obtain ⟨o, ho⟩ := (hsim L hL).2 (by simp) hc1
        simp only [ho]
        exact ⟨o, rfl⟩
      · simp only [(hsim L hL).1 (by omega)]
        by_cases hc2 : pbuf.length < L
        · simp only [storeAt_ok_of_room L pbuf _ _ (Or.inr hc2)]
          simp only [storeAt_err_of_full L (pbuf ++ [ENDPAT]) _ _ (by omega) (by omega)]
          exact ⟨src.length, rfl⟩
        · simp only [storeAt_err_of_full L pbuf _ _ (by omega) (by omega)]
          exact ⟨src.length, rfl⟩


/-- The exact effect of the two placeholder stores, the
`copy_within(pat_start..pat_end, pat_start + 1)` and the overwrite of
`pbuf[pat_start]` in the repetition case of `Compiler::compile`: the
buffer becomes the prefix before `pat_start`, the repetition opcode,
the previous atom bytes, and a trailing `ENDPAT`. -/
theorem copyShiftSet_spec (b : List Nat) (x y rep : Nat) :
    ∀ ps, ps ≤ b.length →
      copyShiftSet (b ++ [x, y]) ps b.length rep = b.take ps ++ [rep] ++ b.drop ps ++ [y] := by
  induction b with
  | nil =>
    intro ps hps
    simp only [List.length_nil] at hps
    have h0 : ps = 0 := by omega
    subst h0
    simp [copyShiftSet]
  | cons c b ih =>
    intro ps hps
    simp only [List.length_cons] at hps
    cases ps with
    | zero =>
      unfold copyShiftSet
      simp only [List.cons_append, List.length_cons, List.take_succ_cons, List.take_zero,
        List.drop_zero, List.drop_succ_cons, List.set_cons_zero, List.nil_append]
      simp [List.take_left', List.drop_left']
    | succ p =>
      unfold copyShiftSet at ih ⊢
      simp only [List.cons_append, List.length_cons, List.take_succ_cons, List.drop_succ_cons,
        Nat.succ_sub_succ, List.set_cons_succ, List.append_assoc] at ih ⊢
      rw [ih p (by omega)]

/-! ### Characterization of the candidate-offset scan of `is_match` -/

theorem isMatchScan_true_iff (fuel : Nat) (pbuf line : List Nat) :
    ∀ k s, isMatchScan fuel pbuf line (List.range' s k) = some (.ok true) ↔
      ∃ i, s ≤ i ∧ i < s + k ∧ isMatchAnchored fuel pbuf line i = some (.ok true) ∧
        ∀ j, s ≤ j → j < i → isMatchAnchored fuel pbuf line j = some (.ok false) := by
  intro k
  induction k with
  | zero =>
    intro s
    simp only [List.range'_zero, isMatchScan]
    constructor
    · intro h; exact absurd h (by simp)
    · intro ⟨i, h1, h2, _⟩; omega
  | succ k ih =>
    intro s
    rw [List.range'_succ]
    rw [isMatchScan]
    constructor
    · intro h
      cases ha : isMatchAnchored fuel pbuf line s with
      | none => rw [ha] at h; exact absurd h (by simp)
      | some v =>
        rw [ha] at h
        match v with
        | .error e => exact absurd h (by simp)
        | .ok true =>
          exact ⟨s, Nat.le_refl s, by omega, ha, fun j hj1 hj2 => by omega⟩
        | .ok false =>
          obtain ⟨i, hi1, hi2, hi3, hi4⟩ := (ih (s + 1)).1 h
          refine ⟨i, by omega, by omega, hi3, fun j hj1 hj2 => ?_⟩
          rcases Nat.eq_or_lt_of_le hj1 with hj | hj
          · rw [← hj]; exact ha
          · exact hi4 j (by omega) hj2
    · intro ⟨i, hi1, hi2, hi3, hi4⟩
      cases ha : isMatchAnchored fuel pbuf line s with
      | none =>
        rcases Nat.eq_or_lt_of_le hi1 with hj | hj
        · rw [← hj] at hi3; rw [ha] at hi3; exact absurd hi3 (by simp)
        · have := hi4 s (Nat.le_refl s) hj; rw [ha] at this; exact absurd this (by simp)
      | some v =>
        match v with
        | .error e =>
          rcases Nat.eq_or_lt_of_le hi1 with hj | hj
          · rw [← hj] at hi3; rw [ha] at hi3; exact absurd hi3 (by simp)
          · have := hi4 s (Nat.le_refl s) hj; rw [ha] at this; exact absurd this (by simp)
        | .ok true => rfl
        | .ok false =>
          rcases Nat.eq_or_lt_of_le hi1 with hj | hj
          · rw [← hj] at hi3; rw [ha] at hi3; exact absurd hi3 (by simp)
          · exact (ih (s + 1)).2 ⟨i, by omega, by omega, hi3, fun j hj1 hj2 => hi4 j (by omega) hj2⟩


/-! ### Symbolic evaluation of the empty-class patterns on arbitrary lines -/

theorem anchored_false_c4 (line : List Nat) (i : Nat) (h : i < line.length) :
    isMatchAnchored 2 [5, 1, 15, 0] line i = some (.ok false) := by
  have hpeek : lcPeek ⟨line, (i : Int)⟩ = .ok (line.getD i 0) := by
    unfold lcPeek
    have h1 : ¬((i : Int) < 0) := by omega
    have h2 : (i : Int) < (line.length : Int) := by exact_mod_cast h
    rw [if_neg h1, if_pos h2]
    simp
  unfold isMatchAnchored
  simp only [pmatch, classLoop, ebind, mbind, pcPeek, pcAdv, lcAdv, hpeek, CHAR, BOL, EOL, ANY,
    CLASSOP, NCLASSOP, STAR, PLUS, MINUS, ALPHA, DIGIT, NALPHA, PUNCT, RANGE, ENDPAT]
  by_cases hc : toLower (line.getD i 0) = 15
  · rw [List.getD_eq_getElem?_getD] at hc
    simp [hc]
  · rw [List.getD_eq_getElem?_getD] at hc
    have hc2 : ¬((15 : Nat) = toLower ((getElem? line i).getD 0)) := fun hh => hc hh.symm
    simp [hc, hc2]

theorem anchored_false_c5 (line : List Nat) (i : Nat) (h : i < line.length) :
    isMatchAnchored 2 [5, 2, 14, 15, 0] line i = some (.ok false) := by
  have hpeek : lcPeek ⟨line, (i : Int)⟩ = .ok (line.getD i 0) := by
    unfold lcPeek
    have h1 : ¬((i : Int) < 0) := by omega
    have h2 : (i : Int) < (line.length : Int) := by exact_mod_cast h
    rw [if_neg h1, if_pos h2]
    simp
  unfold isMatchAnchored
  simp only [pmatch, classLoop, ebind, mbind, pcPeek, pcAdv, lcAdv, hpeek, CHAR, BOL, EOL, ANY,
    CLASSOP, NCLASSOP, STAR, PLUS, MINUS, ALPHA, DIGIT, NALPHA, PUNCT, RANGE, ENDPAT]
  have himp : ¬((15 : Nat) ≤ toLower ((getElem? line i).getD 0) ∧ toLower ((getElem? line i).getD 0) = 0) := by
    omega
  simp [himp]

theorem anchored_err_c3 (c : Nat) (rest : List Nat) :
    isMatchAnchored 3 [6, 1, 15, 0] (c :: rest) 0 = some (.error (.badOpcode 0)) := by
  have hpeek : lcPeek ⟨c :: rest, (0 : Int)⟩ = .ok c := by
    unfold lcPeek
    norm_num
  unfold isMatchAnchored
  simp only [pmatch, classLoop, ebind, mbind, pcPeek, pcAdv, lcAdv, pcBump, hpeek, CHAR, BOL, EOL,
    ANY, CLASSOP, NCLASSOP, STAR, PLUS, MINUS, ALPHA, DIGIT, NALPHA, PUNCT, RANGE, ENDPAT]
  by_cases hc : toLower c = 15
  · simp [hc, hpeek]
  · have hc2 : ¬(15 = toLower c) := fun hh => hc hh.symm
    simp [hc, hc2, hpeek]

theorem isMatchScan_all_false (fuel : Nat) (pbuf line : List Nat) :
    ∀ is, (∀ i ∈ is, isMatchAnchored fuel pbuf line i = some (.ok false)) →
      isMatchScan fuel pbuf line is = some (.ok false) := by
  intro is
  induction is with
  | nil => intro _; rfl
  | cons i rest ih =>
    intro hall
    rw [isMatchScan]
    rw [hall i (by simp)]
    exact ih (fun j hj => hall j (by simp [hj]))

theorem isMatch_false_c4 (line : List Nat) : isMatch 2 [5, 1, 15, 0] line = some (.ok false) := by
  unfold isMatch isMatchAt
  apply isMatchScan_all_false
  intro i hi
  rw [List.mem_range'_1] at hi
  exact anchored_false_c4 line i (by omega)

theorem isMatch_false_c5 (line : List Nat) :
    isMatch 2 [5, 2, 14, 15, 0] line = some (.ok false) := by
  unfold isMatch isMatchAt
  apply isMatchScan_all_false
  intro i hi
  rw [List.mem_range'_1] at hi
  exact anchored_false_c5 line i (by omega)

theorem isMatch_err_c3 (c : Nat) (rest : List Nat) :
    isMatch 3 [6, 1, 15, 0] (c :: rest) = some (.error (.badOpcode 0)) := by
  unfold isMatch isMatchAt
  have hlen : (c :: rest).length - 0 = rest.length + 1 := by simp
  rw [hlen, List.range'_succ, isMatchScan, anchored_err_c3 c rest]


/-! ### Diagnostics (`PatternError::dump` in src/errors.rs) -/

/-- The ASCII bytes of a string literal. -/
def strBytes (s : String) : List Nat := s.toList.map Char.toNat

/-- The decimal ASCII bytes of `n`, most significant digit first (the
`{}` formatting of a `usize`). -/
def natDecimal (n : Nat) : List Nat := (Nat.toDigits 10 n).map Char.toNat

/-- `PatternErrorKind::message` in src/errors.rs (the misspelling of
`occurrance` is in the source, kept from grep.c). -/
def PatternErrorKind.message : PatternErrorKind → String
  | .illegalOccurrence => "Illegal occurrance op."
  | .unknownColonType => "Unknown : type"
  | .noColonType => "No : type"
  | .classUnterminated => "Unterminated class"
  | .classBackslashUnterminated => "Class terminates badly"
  | .classTooLarge => "Class too large"
  | .classEmpty => "Empty class"
  | .complexPattern => "Pattern too complex"

/-- The bytes `PatternError::dump` writes to stderr, in write order.
A `ComplexPattern` error prints only its message line.  Every other
kind prints the message with the quoted source (with no space before
the opening quote, byte 34), then the stop offset with the byte at
`source[offset - 1]` wrapped in byte-39 quotes, then the final line.
The result is `none` when `source[offset - 1]` would panic (index out
of bounds); `compile` never produces such an error. -/
def dumpBytes (k : PatternErrorKind) (source : List Nat) (offset : Nat) : Option (List Nat) :=
  if k = .complexPattern then some (strBytes k.message ++ [10])
  else
    match source.get? (offset - 1) with
    | none => none
    | some b =>
      some (strBytes "-GREP-E-" ++ strBytes k.message ++ strBytes ", pattern is"
        ++ [34] ++ source ++ [34] ++ [10]
        ++ strBytes "-GREP-E-Stopped at byte " ++ natDecimal offset ++ strBytes ", "
        ++ [39, b, 39] ++ [10]
        ++ strBytes "?GREP-E-Bad pattern" ++ [10])

/-! ### Concrete compilations used by the claims -/

set_option maxRecDepth 8192 in
set_option maxHeartbeats 1000000 in
theorem compile_dollar : compile [36] 0 = .ok [3, 15, 0] := by
  simp [compile, compileLoop, storeAt, store, repIllegal, toLower]

theorem compile_empty : compile [] 0 = .ok [15, 0] := by
  simp [compile, compileLoop, storeAt, store]

set_option maxRecDepth 8192 in
theorem compile_nclass_empty : compile [91, 94, 93] 0 = .ok [6, 1, 15, 0] := by
  have hcc : cclassFull [91, 94, 93] 0 1 [] = .ok (3, [6, 1]) := by
    simp [cclassFull, cclassTail, cclassLoop, storeAt, store, toLower]
  have hloop : compileLoop [91, 94, 93] 0 0 0 [] = .ok [6, 1] := by
    rw [compileLoop]
    norm_num [repIllegal]
    split
    · rename_i e heq
      rw [hcc] at heq
      exact Except.noConfusion heq
    · rename_i off2 pbuf1 heq
      rw [hcc] at heq
      obtain ⟨ho, hp⟩ := Prod.mk.injEq .. ▸ (Except.ok.injEq .. ▸ heq)
      subst ho; subst hp
      rw [compileLoop]
      norm_num
  simp [compile, hloop, storeAt, store]

set_option maxRecDepth 8192 in
theorem compile_class_empty : compile [91, 93] 0 = .ok [5, 1, 15, 0] := by
  have hcc : cclassFull [91, 93] 0 1 [] = .ok (2, [5, 1]) := by
    simp [cclassFull, cclassTail, cclassLoop, storeAt, store, toLower]
  have hloop : compileLoop [91, 93] 0 0 0 [] = .ok [5, 1] := by
    rw [compileLoop]
    norm_num [repIllegal]
    split
    · rename_i e heq
      rw [hcc] at heq
      exact Except.noConfusion heq
    · rename_i off2 pbuf1 heq
      rw [hcc] at heq
      obtain ⟨ho, hp⟩ := Prod.mk.injEq .. ▸ (Except.ok.injEq .. ▸ heq)
      subst ho; subst hp
      rw [compileLoop]
      norm_num
  simp [compile, hloop, storeAt, store]

set_option maxRecDepth 8192 in
theorem compile_class_x0e : compile [91, 14, 93] 0 = .ok [5, 2, 14, 15, 0] := by
  have hcc : cclassFull [91, 14, 93] 0 1 [] = .ok (3, [5, 2, 14]) := by
    simp [cclassFull, cclassTail, cclassLoop, storeAt, store, toLower]
  have hloop : compileLoop [91, 14, 93] 0 0 0 [] = .ok [5, 2, 14] := by
    rw [compileLoop]
    norm_num [repIllegal]
    split
    · rename_i e heq
      rw [hcc] at heq
      exact Except.noConfusion heq
    · rename_i off2 pbuf1 heq
      rw [hcc] at heq
      obtain ⟨ho, hp⟩ := Prod.mk.injEq .. ▸ (Except.ok.injEq .. ▸ heq)
      subst ho; subst hp
      rw [compileLoop]
      norm_num
  simp [compile, hloop, storeAt, store]

set_option maxRecDepth 8192 in
set_option maxHeartbeats 1000000 in
theorem compile_fostar : compile [102, 111, 42] 0 = .ok [1, 102, 7, 1, 111, 15, 15, 0] := by
  simp [compile, compileLoop, storeAt, store, repIllegal, copyShiftSet, repOp, toLower]

set_option maxRecDepth 8192 in
set_option maxHeartbeats 1000000 in
theorem compile_foplus : compile [102, 111, 43] 0 = .ok [1, 102, 8, 1, 111, 15, 15, 0] := by
  simp [compile, compileLoop, storeAt, store, repIllegal, copyShiftSet, repOp, toLower]

set_option maxRecDepth 8192 in
set_option maxHeartbeats 1000000 in
theorem compile_x02star : compile [2, 42] 0 = .error (.illegalOccurrence, 2) := by
  simp [compile, compileLoop, storeAt, store, repIllegal, toLower]

set_option maxRecDepth 8192 in
set_option maxHeartbeats 1000000 in
theorem compile_x02 : compile [2] 0 = .ok [1, 2, 15, 0] := by
  simp [compile, compileLoop, storeAt, store, repIllegal, toLower]

set_option maxRecDepth 8192 in
set_option maxHeartbeats 1000000 in
theorem compile_ab : compile [97, 98] 0 = .ok [1, 97, 1, 98, 15, 0] := by
  simp [compile, compileLoop, storeAt, store, repIllegal, toLower]

set_option maxRecDepth 8192 in
set_option maxHeartbeats 1000000 in
theorem compile_star_alone : compile [42] 0 = .error (.illegalOccurrence, 1) := by
  simp [compile, compileLoop, storeAt, store, repIllegal, toLower]


/-! ### The claims -/

/-- C1, counterexample to the claim as stated: the pattern `$`
compiles, `is_match_anchored` succeeds at the candidate offset
`line.len()` (here offset 1 on the line `a`), yet `is_match` returns
`Ok(false)`; likewise the empty pattern does not match the empty line
although the anchored match at offset 0 succeeds.  The claimed
inclusive scan `0..=line.len()` would return `Ok(true)` in both
cases. -/
theorem C1_counterexample :
    compile [36] 0 = .ok [3, 15, 0] ∧
    isMatch 10 [3, 15, 0] [97] = some (.ok false) ∧
    isMatchAnchored 10 [3, 15, 0] [97] 1 = some (.ok true) ∧
    compile [] 0 = .ok [15, 0] ∧
    isMatch 10 [15, 0] [] = some (.ok false) ∧
    isMatchAnchored 10 [15, 0] [] 0 = some (.ok true) :=
  ⟨compile_dollar, by decide, by decide, compile_empty, by decide, by decide⟩

/-- C1 (corrected): `Pattern::is_match` equals `is_match_at` from
offset 0, which tries anchored matches at every candidate start offset
of the half-open range `0..line.len()` and returns `Ok(true)` exactly
when the first non-`Ok(false)` anchored result is `Ok(true)`; the
offset `line.len()` is never tried, so on the empty line every pattern
yields `Ok(false)`. -/
theorem C1_scan_halfopen : ∀ fuel pbuf line,
    isMatch fuel pbuf line = isMatchAt fuel pbuf line 0 ∧
    (isMatch fuel pbuf line = some (.ok true) ↔
      ∃ i, i < line.length ∧ isMatchAnchored fuel pbuf line i = some (.ok true) ∧
        ∀ j, j < i → isMatchAnchored fuel pbuf line j = some (.ok false)) ∧
    isMatch fuel pbuf [] = some (.ok false) := by
  intro fuel pbuf line
  refine ⟨rfl, ?_, rfl⟩
  unfold isMatch isMatchAt
  rw [isMatchScan_true_iff fuel pbuf line (line.length - 0) 0]
  constructor
  · intro ⟨i, h1, h2, h3, h4⟩
    exact ⟨i, by omega, h3, fun j hj => h4 j (by omega) hj⟩
  · intro ⟨i, h2, h3, h4⟩
    exact ⟨i, by omega, by omega, h3, fun j _ hj => h4 j hj⟩

/-- C2, counterexample to the claim as stated: the source byte 0x02
compiles to the atom `[CHAR, 2]`, whose atom opcode is `CHAR`, so by
the claim a following `*` should wrap it; instead `compile` fails with
`IllegalOccurrence` because the legality check inspects the last
buffer byte (the operand 2 = `BOL`), not the atom opcode. -/
theorem C2_counterexample :
    compile [2, 42] 0 = .error (.illegalOccurrence, 2) ∧
    compile [2] 0 = .ok [1, 2, 15, 0] :=
  ⟨compile_x02star, compile_x02⟩

/-- C2 (corrected): on a `*`, `+` or `-` source byte, compilation
fails with `IllegalOccurrence` at the current source position if and
only if the output buffer is empty or its last BYTE is `BOL`, `EOL`,
`STAR`, `PLUS` or `MINUS` (`repIllegal`); otherwise (shown here for an
unlimited buffer) the bytes from the last atom start `ps` are wrapped
into `<REP-OP> <atom bytes> ENDPAT` and compilation continues. -/
theorem C2_rep_condition : ∀ src pmax ps off pbuf,
    off < src.length →
    (src.getD off 0 = 42 ∨ src.getD off 0 = 43 ∨ src.getD off 0 = 45) →
    (repIllegal pbuf →
      compileLoop src pmax ps off pbuf = .error (.illegalOccurrence, off + 1)) ∧
    (¬repIllegal pbuf → pmax = 0 → ps ≤ pbuf.length →
      compileLoop src pmax ps off pbuf =
        compileLoop src pmax ps (off + 1)
          (pbuf.take ps ++ [repOp (src.getD off 0)] ++ pbuf.drop ps ++ [ENDPAT])) := by
  intro src pmax ps off pbuf hlt hrep
  constructor
  · intro hbad
    rw [compileLoop]
    simp only [dif_pos hlt, if_pos hrep, if_pos hbad]
  · intro hbad h0 hps
    subst h0
    rw [compileLoop]
    simp only [dif_pos hlt, if_pos hrep, if_neg hbad, storeAt_zero]
    have hasc : (pbuf ++ [ENDPAT]) ++ [ENDPAT] = pbuf ++ [ENDPAT, ENDPAT] := by simp
    rw [hasc, copyShiftSet_spec pbuf ENDPAT ENDPAT (repOp (src.getD off 0)) ps hps]

/-- C2 witness: the illegal case at the bare `*`, and the legal case
wrapping the atom `[CHAR, 97]` of the source `a*`. -/
theorem C2_rep_condition_witness :
    compileLoop [42] 0 0 0 [] = .error (.illegalOccurrence, 1) ∧
    compileLoop [97, 42] 0 0 1 [1, 97] =
      compileLoop [97, 42] 0 0 2
        (([1, 97] : List Nat).take 0 ++ [repOp ([97, 42].getD 1 0)]
          ++ ([1, 97] : List Nat).drop 0 ++ [ENDPAT]) :=
  ⟨(C2_rep_condition [42] 0 0 0 [] (by decide) (by decide)).1 (by decide),
   (C2_rep_condition [97, 42] 0 0 1 [1, 97] (by decide) (by decide)).2
     (by decide) rfl (by decide)⟩

/-- C3: the source `[^]` compiles (with no limit, and under every
limit of at least its 4 compiled bytes) to exactly
`[NCLASS, 1, ENDPAT, 0]`, and matching any non-empty line against
that bytecode returns `Err(BadOpcode { op: 0 })`: with enough fuel the
fueled run returns exactly that error, and no fueled run can return
anything else. -/
theorem C3_empty_nclass :
    compile [91, 94, 93] 0 = .ok [6, 1, 15, 0] ∧
    (∀ L, 4 ≤ L → compile [91, 94, 93] L = .ok [6, 1, 15, 0]) ∧
    (∀ line fuel, line ≠ [] → 3 ≤ fuel →
      isMatch fuel [6, 1, 15, 0] line = some (.error (.badOpcode 0))) ∧
    (∀ line fuel r, line ≠ [] → isMatch fuel [6, 1, 15, 0] line = some r →
      r = .error (.badOpcode 0)) := by
  refine ⟨compile_nclass_empty, ?_, ?_, ?_⟩
  · intro L hL
    exact (compile_sim compile_nclass_empty).1 L hL
  · intro line fuel hne hfuel
    match line with
    | [] => exact absurd rfl hne
    | c :: rest => exact isMatch_mono_le hfuel (isMatch_err_c3 c rest)
  · intro line fuel r hne hr
    match line with
    | [] => exact absurd rfl hne
    | c :: rest => exact isMatch_agree hr (isMatch_err_c3 c rest)

/-- C3 witness: limit 4 and the line `abc` followed by a newline. -/
theorem C3_empty_nclass_witness :
    compile [91, 94, 93] 4 = .ok [6, 1, 15, 0] ∧
    isMatch 3 [6, 1, 15, 0] [97, 98, 99, 10] = some (.error (.badOpcode 0)) :=
  ⟨C3_empty_nclass.2.1 4 (by decide),
   C3_empty_nclass.2.2.1 [97, 98, 99, 10] 3 (by decide) (by decide)⟩

/-- C4: the source `[]` compiles (with no limit, and under every limit
of at least its 4 compiled bytes) to exactly `[CLASS, 1, ENDPAT, 0]`,
and `is_match` on that bytecode returns `Ok(false)` on every line
(including lines containing the byte 0x0F): with enough fuel the
fueled run returns exactly `Ok(false)`, and no fueled run can return
`Ok(true)` or an error. -/
theorem C4_empty_class :
    compile [91, 93] 0 = .ok [5, 1, 15, 0] ∧
    (∀ L, 4 ≤ L → compile [91, 93] L = .ok [5, 1, 15, 0]) ∧
    (∀ line fuel, 2 ≤ fuel → isMatch fuel [5, 1, 15, 0] line = some (.ok false)) ∧
    (∀ line fuel r, isMatch fuel [5, 1, 15, 0] line = some r → r = .ok false) := by
  refine ⟨compile_class_empty, ?_, ?_, ?_⟩
  · intro L hL
    exact (compile_sim compile_class_empty).1 L hL
  · intro line fuel hfuel
    exact isMatch_mono_le hfuel (isMatch_false_c4 line)
  · intro line fuel r hr
    exact isMatch_agree hr (isMatch_false_c4 line)

/-- C4 witness: limit 4 and a line containing the byte 0x0F. -/
theorem C4_empty_class_witness :
    compile [91, 93] 4 = .ok [5, 1, 15, 0] ∧
    isMatch 2 [5, 1, 15, 0] [97, 98, 99, 15, 10] = some (.ok false) :=
  ⟨C4_empty_class.2.1 4 (by decide),
   C4_empty_class.2.2.1 [97, 98, 99, 15, 10] 2 (by decide)⟩

/-- C5: the source `[\x0e]` compiles (with no limit, and under every
limit of at least its 5 compiled bytes) to exactly
`[CLASS, 2, 0x0e, ENDPAT, 0]`, and `is_match` on that bytecode
returns `Ok(false)` on every line (including lines containing 0x0e),
with no overrun error: the stored 0x0e byte is read as a `RANGE`
marker whose bounds `15..=0` are empty, and the scan never leaves the
5 pattern bytes. -/
theorem C5_class_range_confusion :
    compile [91, 14, 93] 0 = .ok [5, 2, 14, 15, 0] ∧
    (∀ L, 5 ≤ L → compile [91, 14, 93] L = .ok [5, 2, 14, 15, 0]) ∧
    (∀ line fuel, 2 ≤ fuel → isMatch fuel [5, 2, 14, 15, 0] line = some (.ok false)) ∧
    (∀ line fuel r, isMatch fuel [5, 2, 14, 15, 0] line = some r → r = .ok false) := by
  refine ⟨compile_class_x0e, ?_, ?_, ?_⟩
  · intro L hL
    exact (compile_sim compile_class_x0e).1 L hL
  · intro line fuel hfuel
    exact isMatch_mono_le hfuel (isMatch_false_c5 line)
  · intro line fuel r hr
    exact isMatch_agree hr (isMatch_false_c5 line)

/-- C5 witness: limit 5 and a line containing the byte 0x0e. -/
theorem C5_class_range_confusion_witness :
    compile [91, 14, 93] 5 = .ok [5, 2, 14, 15, 0] ∧
    isMatch 2 [5, 2, 14, 15, 0] [14] = some (.ok false) :=
  ⟨C5_class_range_confusion.2.1 5 (by decide),
   C5_class_range_confusion.2.2.1 [14] 2 (by decide)⟩

/-- C6: if a source compiles with `limit = 0` to a bytecode of `S`
bytes, then compiling it with any positive limit strictly below `S`
fails with `ComplexPattern`, compiling it with any limit at least `S`
succeeds (with the same bytecode), and a `limit = 0` compilation can
never fail with `ComplexPattern`. -/
theorem C6_capacity :
    (∀ src B, compile src 0 = .ok B →
      (∀ L, 0 < L → L < B.length → ∃ o, compile src L = .error (.complexPattern, o)) ∧
      (∀ L, B.length ≤ L → compile src L = .ok B)) ∧
    (∀ src k o, compile src 0 = .error (k, o) → k ≠ .complexPattern) := by
  constructor
  · intro src B h
    exact ⟨(compile_sim h).2, (compile_sim h).1⟩
  · intro src k o h
    exact (compile_err h).2 rfl

/-- C6 witness: the source `ab` compiles unlimited to 6 bytes; limit 3
fails with `ComplexPattern` and limit 6 reproduces the bytecode. -/
theorem C6_capacity_witness :
    (∃ o, compile [97, 98] 3 = .error (.complexPattern, o)) ∧
    compile [97, 98] 6 = .ok [1, 97, 1, 98, 15, 0] :=
  ⟨(C6_capacity.1 [97, 98] [1, 97, 1, 98, 15, 0] compile_ab).1 3 (by decide) (by decide),
   (C6_capacity.1 [97, 98] [1, 97, 1, 98, 15, 0] compile_ab).2 6 (by decide)⟩

/-- C7: the pattern compiled from `fo*` matches the lines `f`, `fo`
and `foo`; the pattern compiled from `fo+` matches `fo` and `foo` but
not `f` (for every sufficient fuel, hence for the unbounded Rust
run). -/
theorem C7_greediness :
    compile [102, 111, 42] 0 = .ok [1, 102, 7, 1, 111, 15, 15, 0] ∧
    compile [102, 111, 43] 0 = .ok [1, 102, 8, 1, 111, 15, 15, 0] ∧
    ∀ fuel, 30 ≤ fuel →
      isMatch fuel [1, 102, 7, 1, 111, 15, 15, 0] [102] = some (.ok true) ∧
      isMatch fuel [1, 102, 7, 1, 111, 15, 15, 0] [102, 111] = some (.ok true) ∧
      isMatch fuel [1, 102, 7, 1, 111, 15, 15, 0] [102, 111, 111] = some (.ok true) ∧
      isMatch fuel [1, 102, 8, 1, 111, 15, 15, 0] [102] = some (.ok false) ∧
      isMatch fuel [1, 102, 8, 1, 111, 15, 15, 0] [102, 111] = some (.ok true) ∧
      isMatch fuel [1, 102, 8, 1, 111, 15, 15, 0] [102, 111, 111] = some (.ok true) := by
  refine ⟨compile_fostar, compile_foplus, ?_⟩
  intro fuel hf
  exact ⟨isMatch_mono_le hf (by decide), isMatch_mono_le hf (by decide),
    isMatch_mono_le hf (by decide), isMatch_mono_le hf (by decide),
    isMatch_mono_le hf (by decide), isMatch_mono_le hf (by decide)⟩

/-- C7 witness: fuel 30. -/
theorem C7_greediness_witness :
    isMatch 30 [1, 102, 7, 1, 111, 15, 15, 0] [102] = some (.ok true) ∧
    isMatch 30 [1, 102, 7, 1, 111, 15, 15, 0] [102, 111] = some (.ok true) ∧
    isMatch 30 [1, 102, 7, 1, 111, 15, 15, 0] [102, 111, 111] = some (.ok true) ∧
    isMatch 30 [1, 102, 8, 1, 111, 15, 15, 0] [102] = some (.ok false) ∧
    isMatch 30 [1, 102, 8, 1, 111, 15, 15, 0] [102, 111] = some (.ok true) ∧
    isMatch 30 [1, 102, 8, 1, 111, 15, 15, 0] [102, 111, 111] = some (.ok true) :=
  C7_greediness.2.2 30 (by decide)

/-- C8: every successful compilation, for every source and limit,
produces a bytecode ending in the two bytes `ENDPAT` (15) and 0; in
particular the bytecode is never empty. -/
theorem C8_endpat_suffix : ∀ src limit B, compile src limit = .ok B →
    ∃ p, B = p ++ [ENDPAT, 0] := by
  intro src limit B h
  unfold compile at h
  cases h1 : compileLoop src limit 0 0 [] with
  | error e => simp only [h1] at h; exact Except.noConfusion h
  | ok pbuf =>
    simp only [h1] at h
    cases h2 : storeAt limit pbuf ENDPAT src.length with
    | error e => simp only [h2] at h; exact Except.noConfusion h
    | ok pbuf1 =>
      simp only [h2] at h
      cases h3 : storeAt limit pbuf1 0 src.length with
      | error e => simp only [h3] at h; exact Except.noConfusion h
      | ok pbuf2 =>
        simp only [h3, Except.ok.injEq] at h
        subst h
        rw [storeAt_ok h3, storeAt_ok h2]
        exact ⟨pbuf, by simp⟩

/-- C8 witness: the empty source compiles to exactly `[ENDPAT, 0]`. -/
theorem C8_endpat_suffix_witness : ∃ p, ([15, 0] : List Nat) = p ++ [ENDPAT, 0] :=
  C8_endpat_suffix [] 0 [15, 0] compile_empty

/-- C9: for every non-`ComplexPattern` error with an in-bounds stop
offset, `dump` writes exactly three lines: the kind message and the
quoted source with no space before the opening quote, then
`-GREP-E-Stopped at byte <offset>` with the source byte at
`offset - 1` in single quotes, then `?GREP-E-Bad pattern`; a
`ComplexPattern` error prints only its message line. -/
theorem C9_dump_format :
    (∀ k src off, k ≠ .complexPattern → 1 ≤ off → off ≤ src.length →
      dumpBytes k src off = some (
        (strBytes "-GREP-E-" ++ strBytes k.message ++ strBytes ", pattern is"
          ++ [34] ++ src ++ [34]) ++ [10]
        ++ (strBytes "-GREP-E-Stopped at byte " ++ natDecimal off ++ strBytes ", "
          ++ [39, src.getD (off - 1) 0, 39]) ++ [10]
        ++ strBytes "?GREP-E-Bad pattern" ++ [10])) ∧
    (∀ src off, dumpBytes .complexPattern src off =
      some (strBytes "Pattern too complex" ++ [10])) := by
  constructor
  · intro k src off hk h1 h2
    unfold dumpBytes
    rw [if_neg hk]
    have hidx : off - 1 < src.length := by omega
    have hget : src.get? (off - 1) = some (src.getD (off - 1) 0) := by
      rw [List.get?_eq_getElem?, List.getElem?_eq_getElem hidx]
      simp [List.getD_eq_getElem?_getD, List.getElem?_eq_getElem hidx]
    rw [hget]
    simp [List.append_assoc]
  · intro src off
    rfl

/-- C9 witness: the `IllegalOccurrence` error for the source `a*` at
offset 2, and a `ComplexPattern` instance. -/
theorem C9_dump_format_witness :
    dumpBytes .illegalOccurrence [97, 42] 2 = some (
      (strBytes "-GREP-E-" ++ strBytes PatternErrorKind.illegalOccurrence.message
        ++ strBytes ", pattern is" ++ [34] ++ [97, 42] ++ [34]) ++ [10]
      ++ (strBytes "-GREP-E-Stopped at byte " ++ natDecimal 2 ++ strBytes ", "
        ++ [39, ([97, 42] : List Nat).getD 1 0, 39]) ++ [10]
      ++ strBytes "?GREP-E-Bad pattern" ++ [10]) :=
  C9_dump_format.1 .illegalOccurrence [97, 42] 2 (by decide) (by decide) (by decide)

/-- C10: whenever `compile` fails with a kind other than
`ComplexPattern`, the error offset satisfies
`1 <= offset <= source.len()`, so the indexing `source[offset - 1]`
in `PatternError::dump` is in bounds and `dumpBytes` never hits its
panic case. -/
theorem C10_error_offsets : ∀ src limit k off,
    compile src limit = .error (k, off) → k ≠ .complexPattern →
    1 ≤ off ∧ off ≤ src.length ∧ (dumpBytes k src off).isSome := by
  intro src limit k off h hk
  obtain ⟨h1, h2⟩ := (compile_err h).1 hk
  refine ⟨h1, h2, ?_⟩
  unfold dumpBytes
  rw [if_neg hk]
  have hidx : off - 1 < src.length := by omega
  have hget : src.get? (off - 1) = some (src.getD (off - 1) 0) := by
    rw [List.get?_eq_getElem?, List.getElem?_eq_getElem hidx]
    simp [List.getD_eq_getElem?_getD, List.getElem?_eq_getElem hidx]
  rw [hget]
  rfl

/-- C10 witness: the bare `*` fails with `IllegalOccurrence` at
offset 1 on a one-byte source. -/
theorem C10_error_offsets_witness :
    1 ≤ 1 ∧ 1 ≤ ([42] : List Nat).length ∧
      (dumpBytes .illegalOccurrence [42] 1).isSome :=
  C10_error_offsets [42] 0 .illegalOccurrence 1 compile_star_alone (by decide)


end DecusGrep
